import Mathlib

/-!
Verification of the bubblegum terminal-UI core (Go) against its
natural-language specification.

The Go sources are shallowly embedded: Go structs become Lean structures,
Go `int` is modelled as `Int` (arbitrary precision; overflow plays no role
in the properties below), Go `uint8(x)` conversions are modelled as
`x.emod 256`, Go slices become `List`s, and loops become fuel/structural
recursions.  Nil-pointer results are modelled with `Option`.
-/

namespace Bubblegum

/-! ## Cell / Grid data model (lib/parser.go, type declarations) -/

/-- Color represents an RGB color value for terminal rendering; `IsDefault`
indicates whether to use the default terminal color.  Channels are Go `uint8`
values, modelled as `Nat` kept below 256 by the `% 256` conversions at the
call sites that convert from `int`. -/
structure Color where
  R : Nat
  G : Nat
  B : Nat
  IsDefault : Bool
deriving DecidableEq, Repr

/-- DefaultColor returns a Color marked as default (Go zero value for the
RGB fields). -/
def DefaultColor : Color := { R := 0, G := 0, B := 0, IsDefault := true }

/-- NewColor creates a Color from RGB values (arguments are already uint8
in Go). -/
def NewColor (r g b : Nat) : Color := { R := r, G := g, B := b, IsDefault := false }

/-- Cell represents a single character cell in the terminal grid. -/
structure Cell where
  Rune : Char
  FgColor : Color
  BgColor : Color
  Bold : Bool
  Italic : Bool
  Underline : Bool
  Strikethrough : Bool
deriving DecidableEq, Repr

/-- NewCell creates a new Cell with default values: a space character,
default colors, and (Go zero values) all style flags false. -/
def NewCell : Cell :=
  { Rune := ' ', FgColor := DefaultColor, BgColor := DefaultColor,
    Bold := false, Italic := false, Underline := false, Strikethrough := false }

/-- TerminalGrid represents a character-based grid where each cell contains a
single character with styling information.  `Cells` is the Go `[][]Cell`. -/
structure TerminalGrid where
  Width : Int
  Height : Int
  Cells : List (List Cell)
deriving DecidableEq, Repr

/-- Well-formedness of a grid as established by `NewTerminalGrid`: the row
list has `Height` rows and every row has `Width` cells.  Go maintains this
by construction; in Lean it is an explicit hypothesis where needed. -/
def TerminalGrid.WF (tg : TerminalGrid) : Prop :=
  tg.Cells.length = tg.Height.toNat ∧ ∀ row ∈ tg.Cells, row.length = tg.Width.toNat

instance (tg : TerminalGrid) : Decidable tg.WF := by
  unfold TerminalGrid.WF; infer_instance

/-- NewTerminalGrid creates a new TerminalGrid with the specified dimensions,
all cells initialized with default values; returns nil (here `none`) when a
dimension is non-positive. -/
def NewTerminalGrid (width height : Int) : Option TerminalGrid :=
  if width ≤ 0 ∨ height ≤ 0 then none
  else some { Width := width, Height := height,
              Cells := List.replicate height.toNat (List.replicate width.toNat NewCell) }

/-- Reading `tg.Cells[y][x]`.  Go would panic out of range; all uses below are
in range for well-formed grids, where `getD` agrees with Go indexing. -/
def TerminalGrid.cellAt (tg : TerminalGrid) (x y : Nat) : Cell :=
  (tg.Cells.getD y []).getD x NewCell

/-- Writing `tg.Cells[y][x] = c` (in range for all uses below; `List.set`
ignores out-of-range indices where Go would panic). -/
def TerminalGrid.setAt (tg : TerminalGrid) (x y : Nat) (c : Cell) : TerminalGrid :=
  { tg with Cells := tg.Cells.set y ((tg.Cells.getD y []).set x c) }

/-- Region represents a rectangular region in the terminal grid. -/
structure Region where
  X : Int
  Y : Int
  Width : Int
  Height : Int
deriving DecidableEq, Repr

/-- cellsEqual compares two cells for equality field by field
(lib/parser.go `cellsEqual`). -/
def cellsEqual (a b : Cell) : Bool :=
  decide (a.Rune = b.Rune) && decide (a.FgColor = b.FgColor) &&
  decide (a.BgColor = b.BgColor) && decide (a.Bold = b.Bold) &&
  decide (a.Italic = b.Italic) && decide (a.Underline = b.Underline) &&
  decide (a.Strikethrough = b.Strikethrough)

/-- The inner column loop of `TerminalGrid.Diff` for one row.  `x` is the
current column, `st` is Go's `startX` (`none` encodes `-1`), and the fuel
argument counts the columns still to scan, so the row width is `x + fuel`.
When the scan ends with an open run the Go code emits
`Region{X: startX, Width: tg.Width - startX}`; here `x = width` at that
point, giving `x - s`. -/
def diffRowAux (differs : Nat → Bool) : Nat → Option Nat → Nat → List (Nat × Nat)
  | x, st, 0 =>
    match st with
    | some s => [(s, x - s)]
    | none => []
  | x, st, fuel + 1 =>
    match st, differs x with
    | none, true => diffRowAux differs (x + 1) (some x) fuel
    | some s, false => (s, x - s) :: diffRowAux differs (x + 1) none fuel
    | st', _ => diffRowAux differs (x + 1) st' fuel

/-- The per-row diff: maximal runs of differing columns as `(startX, width)`
pairs, scanning columns `0 ≤ x < w`. -/
def diffRow (differs : Nat → Bool) (w : Nat) : List (Nat × Nat) :=
  diffRowAux differs 0 none w

/-- Go's `cellChanged := !cellsEqual(tg.Cells[y][x], other.Cells[y][x])`. -/
def cellDiffers (tg o : TerminalGrid) (y x : Nat) : Bool :=
  !cellsEqual (tg.cellAt x y) (o.cellAt x y)

/-- Diff compares this grid with another and returns regions that differ
(lib/parser.go `TerminalGrid.Diff`).  The Go receiver compares against a
possibly-nil pointer; `none` models nil and takes the same full-grid branch
as a dimension mismatch. -/
def TerminalGrid.Diff (tg : TerminalGrid) (other : Option TerminalGrid) : List Region :=
  match other with
  | none => [{ X := 0, Y := 0, Width := tg.Width, Height := tg.Height }]
  | some o =>
    if tg.Width ≠ o.Width ∨ tg.Height ≠ o.Height then
      [{ X := 0, Y := 0, Width := tg.Width, Height := tg.Height }]
    else
      (List.range tg.Height.toNat).flatMap (fun y =>
        (diffRow (cellDiffers tg o y) tg.Width.toNat).map
          (fun r => { X := (r.1 : Int), Y := (y : Int), Width := (r.2 : Int), Height := 1 }))

/-! ## Clearing operations (lib/parser.go `Clear`, `ClearLine`, `ClearFromCursor`) -/

/-- Clear resets all cells to their default values. -/
def TerminalGrid.Clear (tg : TerminalGrid) : TerminalGrid :=
  { tg with Cells := tg.Cells.map (fun row => row.map (fun _ => NewCell)) }

/-- ClearLine resets all cells in the specified line to default values (no-op
when the line index is out of bounds).  Go indexes lines by `int`. -/
def TerminalGrid.ClearLine (tg : TerminalGrid) (y : Int) : TerminalGrid :=
  if y < 0 ∨ tg.Height ≤ y then tg
  else { tg with Cells := tg.Cells.set y.toNat ((tg.Cells.getD y.toNat []).map (fun _ => NewCell)) }

/-- ClearFromCursor clears from column `x` to the end of line `y`: the Go loop
`for i := x; i < tg.Width; i++` resets indices `i ≥ x`.  (For negative `x`,
unreachable from the parser, Go would panic on the first index.) -/
def TerminalGrid.ClearFromCursor (tg : TerminalGrid) (x y : Int) : TerminalGrid :=
  if y < 0 ∨ tg.Height ≤ y then tg
  else { tg with Cells := (tg.Cells.set y.toNat
          ((tg.Cells.getD y.toNat []).mapIdx (fun i c => if x ≤ (i : Int) then NewCell else c))) }

/-! ## ANSI parser embedding (lib/parser.go) -/

/-- The terminator test of `findSequenceEnd`: an ASCII letter `A`-`Z` or
`a`-`z` ends an escape sequence. -/
def isSeqLetter (c : Char) : Bool :=
  ('A' ≤ c && c ≤ 'Z') || ('a' ≤ c && c ≤ 'z')

/-- Go `strconv.Atoi`: optional sign, then decimal digits; anything else, the
empty string, or a value outside the 64-bit `int` range is an error (`none`).
Callers use `err == nil`, so error cases are simply discarded. -/
def atoi (s : List Char) : Option Int :=
  let signed : Int × List Char :=
    match s with
    | '+' :: t => (1, t)
    | '-' :: t => (-1, t)
    | t => (1, t)
  match signed with
  | (sign, digits) =>
    if digits.isEmpty || !digits.all Char.isDigit then none
    else
      let v : Int := sign * (digits.foldl (fun acc c => acc * 10 + ((c.toNat - '0'.toNat : Nat) : Int)) 0)
      if v < -(2 ^ 63) ∨ 2 ^ 63 ≤ v then none else some v

/-- Go `strings.Split(s, ";")`: the list of `;`-separated parts (the empty
string yields one empty part). -/
def splitOnSemi : List Char → List (List Char)
  | [] => [[]]
  | ';' :: rest => [] :: splitOnSemi rest
  | c :: rest =>
    match splitOnSemi rest with
    | [] => [[c]]
    | part :: parts => (c :: part) :: parts

/-- parseSGRParams parses semicolon-separated SGR parameters: an empty
parameter string yields `[0]`; otherwise each empty part contributes `0`,
each valid integer contributes its value, and invalid parts are skipped. -/
def parseSGRParams (params : List Char) : List Int :=
  if params.isEmpty then [0]
  else (splitOnSemi params).filterMap (fun part =>
    if part.isEmpty then some 0 else atoi part)

/-- Go `uint8(x)` conversion from `int`: truncation to the low 8 bits. -/
def u8 (x : Int) : Nat := (x.emod 256).toNat

/-- The fixed standard ANSI palette of `ansi16Color`. -/
def ansi16Palette : List Color :=
  [NewColor 0 0 0,       -- 0: Black
   NewColor 128 0 0,     -- 1: Red
   NewColor 0 128 0,     -- 2: Green
   NewColor 128 128 0,   -- 3: Yellow
   NewColor 0 0 128,     -- 4: Blue
   NewColor 128 0 128,   -- 5: Magenta
   NewColor 0 128 128,   -- 6: Cyan
   NewColor 192 192 192, -- 7: White
   NewColor 128 128 128, -- 8: Bright Black (Gray)
   NewColor 255 0 0,     -- 9: Bright Red
   NewColor 0 255 0,     -- 10: Bright Green
   NewColor 255 255 0,   -- 11: Bright Yellow
   NewColor 0 0 255,     -- 12: Bright Blue
   NewColor 255 0 255,   -- 13: Bright Magenta
   NewColor 0 255 255,   -- 14: Bright Cyan
   NewColor 255 255 255] -- 15: Bright White

/-- ansi16Color returns the RGB color for a 16-color ANSI code (0-15);
out-of-range codes fall back to the default color. -/
def ansi16Color (code : Int) : Color :=
  if 0 ≤ code ∧ code < 16 then ansi16Palette.getD code.toNat DefaultColor
  else DefaultColor

/-- ansi256Color returns the RGB color for a 256-color ANSI code: the 16
standard colors, the 6x6x6 cube for 16-231 (Go `/` and `%` are `tdiv` and
`tmod`), the grayscale ramp for 232-255, and default outside 0-255. -/
def ansi256Color (code : Int) : Color :=
  if code < 0 ∨ 255 < code then DefaultColor
  else if code < 16 then ansi16Color code
  else if 16 ≤ code ∧ code ≤ 231 then
    -- Go: c := code - 16; r := (c/36)*51; g := ((c%36)/6)*51; b := (c%6)*51
    NewColor (u8 (((code - 16).tdiv 36) * 51))
             (u8 ((((code - 16).tmod 36).tdiv 6) * 51))
             (u8 (((code - 16).tmod 6) * 51))
  else if 232 ≤ code then
    -- Go: gray := uint8((code-232)*10 + 8)
    NewColor (u8 ((code - 232) * 10 + 8)) (u8 ((code - 232) * 10 + 8))
             (u8 ((code - 232) * 10 + 8))
  else DefaultColor

/-- ansiParser maintains state while parsing ANSI sequences.  The Go struct
holds a pointer to the grid being populated; the Lean state carries the grid
by value. -/
structure AnsiParser where
  grid : TerminalGrid
  cursorX : Int
  cursorY : Int
  fgColor : Color
  bgColor : Color
  bold : Bool
  italic : Bool
  underline : Bool
  strikethrough : Bool
deriving DecidableEq, Repr

/-- SGR code 0: reset all colors and styles. -/
def AnsiParser.resetSGR (p : AnsiParser) : AnsiParser :=
  { p with fgColor := DefaultColor, bgColor := DefaultColor,
           bold := false, italic := false, underline := false, strikethrough := false }

/-- The lookahead of SGR codes 38/48: `5;n` consumes two further codes
(256-color mode), `2;r;g;b` consumes four (RGB mode); with too few
arguments or an unknown sub-code nothing is consumed and nothing changes
(Go then continues the loop at the next code). -/
def extColorArgs : List Int → Option (Color × List Int)
  | [] => none
  | a :: rest =>
    if a = 5 then
      match rest with
      | n :: rest' => some (ansi256Color n, rest')
      | [] => none
    else if a = 2 then
      match rest with
      | r :: g :: b :: rest' => some (NewColor (u8 r) (u8 g) (u8 b), rest')
      | _ => none
    else none

theorem extColorArgs_length (rest : List Int) (col : Color) (rest2 : List Int)
    (h : extColorArgs rest = some (col, rest2)) : rest2.length < rest.length := by
  match rest with
  | [] => simp [extColorArgs] at h
  | a :: t =>
    simp only [extColorArgs] at h
    split_ifs at h
    · match t with
      | [] => simp at h
      | n :: t2 =>
        simp at h
        obtain ⟨-, rfl⟩ := h
        simp
        omega
    · match t with
      | [] => simp at h
      | [r] => simp at h
      | [r, g] => simp at h
      | r :: g :: b :: t2 =>
        simp at h
        obtain ⟨-, rfl⟩ := h
        simp
        omega

/-- One iteration of the `handleSGR` loop: the switch on one SGR code,
returning the updated state together with the codes still to process (the
38/48 extended color forms consume their arguments, mirroring Go's manual
index advancement `i += 2` / `i += 4`).  Go enumerates the ranges
30-37, 40-47, 90-97 and 100-107 case by case. -/
def sgrStep (p : AnsiParser) (code : Int) (rest : List Int) : AnsiParser × List Int :=
  if code = 0 then (p.resetSGR, rest)
  else if code = 1 then ({ p with bold := true }, rest)
  else if code = 3 then ({ p with italic := true }, rest)
  else if code = 4 then ({ p with underline := true }, rest)
  else if code = 9 then ({ p with strikethrough := true }, rest)
  else if code = 22 then ({ p with bold := false }, rest)
  else if code = 23 then ({ p with italic := false }, rest)
  else if code = 24 then ({ p with underline := false }, rest)
  else if code = 29 then ({ p with strikethrough := false }, rest)
  else if 30 ≤ code ∧ code ≤ 37 then ({ p with fgColor := ansi16Color (code - 30) }, rest)
  else if code = 38 then
    match extColorArgs rest with
    | some (col, rest') => ({ p with fgColor := col }, rest')
    | none => (p, rest)
  else if code = 39 then ({ p with fgColor := DefaultColor }, rest)
  else if 40 ≤ code ∧ code ≤ 47 then ({ p with bgColor := ansi16Color (code - 40) }, rest)
  else if code = 48 then
    match extColorArgs rest with
    | some (col, rest') => ({ p with bgColor := col }, rest')
    | none => (p, rest)
  else if code = 49 then ({ p with bgColor := DefaultColor }, rest)
  else if 90 ≤ code ∧ code ≤ 97 then
    ({ p with fgColor := ansi16Color (code - 90 + 8) }, rest)
  else if 100 ≤ code ∧ code ≤ 107 then
    ({ p with bgColor := ansi16Color (code - 100 + 8) }, rest)
  else (p, rest)

/-- One SGR step: the remaining code list never grows (so the loop
terminates) and the cursor is untouched. -/
theorem sgrStep_length_cursor (p : AnsiParser) (code : Int) (rest : List Int) :
    (sgrStep p code rest).2.length ≤ rest.length ∧
    (sgrStep p code rest).1.cursorX = p.cursorX ∧
    (sgrStep p code rest).1.cursorY = p.cursorY := by
  unfold sgrStep
  by_cases h1 : code = 0
  · rw [if_pos h1]
    exact ⟨Nat.le_refl _, rfl, rfl⟩
  · rw [if_neg h1]
    by_cases h2 : code = 1
    · rw [if_pos h2]
      exact ⟨Nat.le_refl _, rfl, rfl⟩
    · rw [if_neg h2]
      by_cases h3 : code = 3
      · rw [if_pos h3]
        exact ⟨Nat.le_refl _, rfl, rfl⟩
      · rw [if_neg h3]
        by_cases h4 : code = 4
        · rw [if_pos h4]
          exact ⟨Nat.le_refl _, rfl, rfl⟩
        · rw [if_neg h4]
          by_cases h5 : code = 9
          · rw [if_pos h5]
            exact ⟨Nat.le_refl _, rfl, rfl⟩
          · rw [if_neg h5]
            by_cases h6 : code = 22
            · rw [if_pos h6]
              exact ⟨Nat.le_refl _, rfl, rfl⟩
            · rw [if_neg h6]
              by_cases h7 : code = 23
              · rw [if_pos h7]
                exact ⟨Nat.le_refl _, rfl, rfl⟩
              · rw [if_neg h7]
                by_cases h8 : code = 24
                · rw [if_pos h8]
                  exact ⟨Nat.le_refl _, rfl, rfl⟩
                · rw [if_neg h8]
                  by_cases h9 : code = 29
                  · rw [if_pos h9]
                    exact ⟨Nat.le_refl _, rfl, rfl⟩
                  · rw [if_neg h9]
                    by_cases h10 : 30 ≤ code ∧ code ≤ 37
                    · rw [if_pos h10]
                      exact ⟨Nat.le_refl _, rfl, rfl⟩
                    · rw [if_neg h10]
                      by_cases h11 : code = 38
                      · rw [if_pos h11]
                        rcases hsplit : extColorArgs rest with - | ⟨col, rest2⟩
                        · exact ⟨Nat.le_refl _, rfl, rfl⟩
                        · exact ⟨Nat.le_of_lt (extColorArgs_length rest col rest2 hsplit), rfl, rfl⟩
                      · rw [if_neg h11]
                        by_cases h12 : code = 39
                        · rw [if_pos h12]
                          exact ⟨Nat.le_refl _, rfl, rfl⟩
                        · rw [if_neg h12]
                          by_cases h13 : 40 ≤ code ∧ code ≤ 47
                          · rw [if_pos h13]
                            exact ⟨Nat.le_refl _, rfl, rfl⟩
                          · rw [if_neg h13]
                            by_cases h14 : code = 48
                            · rw [if_pos h14]
                              rcases hsplit : extColorArgs rest with - | ⟨col, rest2⟩
                              · exact ⟨Nat.le_refl _, rfl, rfl⟩
                              · exact ⟨Nat.le_of_lt (extColorArgs_length rest col rest2 hsplit), rfl, rfl⟩
                            · rw [if_neg h14]
                              by_cases h15 : code = 49
                              · rw [if_pos h15]
                                exact ⟨Nat.le_refl _, rfl, rfl⟩
                              · rw [if_neg h15]
                                by_cases h16 : 90 ≤ code ∧ code ≤ 97
                                · rw [if_pos h16]
                                  exact ⟨Nat.le_refl _, rfl, rfl⟩
                                · rw [if_neg h16]
                                  by_cases h17 : 100 ≤ code ∧ code ≤ 107
                                  · rw [if_pos h17]
                                    exact ⟨Nat.le_refl _, rfl, rfl⟩
                                  · rw [if_neg h17]
                                    exact ⟨Nat.le_refl _, rfl, rfl⟩

theorem sgrStep_snd_length (p : AnsiParser) (code : Int) (rest : List Int) :
    (sgrStep p code rest).2.length ≤ rest.length :=
  (sgrStep_length_cursor p code rest).1

/-- The body of `handleSGR`: one pass over the parsed codes, one `sgrStep`
per loop iteration. -/
def applySGR (p : AnsiParser) : List Int → AnsiParser
  | [] => p
  | code :: rest => applySGR (sgrStep p code rest).1 (sgrStep p code rest).2
termination_by l => l.length
decreasing_by
  simp only [List.length_cons]
  exact Nat.lt_succ_of_le (sgrStep_snd_length _ _ _)

/-- handleSGR processes Select Graphic Rendition sequences: an empty
parameter string is treated as "0". -/
def AnsiParser.handleSGR (p : AnsiParser) (params : List Char) : AnsiParser :=
  applySGR p (parseSGRParams (if params.isEmpty then ['0'] else params))

/-- Go `int` is a 64-bit two's-complement integer on the targeted
platforms: every arithmetic result wraps modulo `2^64` into
`[-2^63, 2^63)`.  Cursor arithmetic goes through `wrap64` because inputs
such as CSI 9223372036854775807 B make the wraparound reachable. -/
def wrap64 (n : Int) : Int := (n + 2 ^ 63) % 2 ^ 64 - 2 ^ 63

/-- handleCursorPosition moves the cursor to the (1-based) position given by
the first two parameters, clamping each coordinate at 0 (the `- 1` wraps
like Go `int` subtraction). -/
def AnsiParser.handleCursorPosition (p : AnsiParser) (params : List Char) : AnsiParser :=
  match parseSGRParams params with
  | [] => { p with cursorX := 0, cursorY := 0 }
  | c0 :: restCoords =>
    { p with
        cursorY := max (wrap64 (c0 - 1)) 0,
        cursorX := max (match restCoords with | [] => 0 | c1 :: _ => wrap64 (c1 - 1)) 0 }

/-- The shared parameter convention of the relative cursor moves: `n`
defaults to 1 and a parse failure or non-positive value keeps the default. -/
def cursorParam (params : List Char) : Int :=
  if params.isEmpty then 1
  else
    match atoi params with
    | some num => if 0 < num then num else 1
    | none => 1

/-- handleCursorUp moves the cursor up by n lines (wrapping int64
subtraction), clamped at 0. -/
def AnsiParser.handleCursorUp (p : AnsiParser) (params : List Char) : AnsiParser :=
  { p with cursorY := (if wrap64 (p.cursorY - cursorParam params) < 0 then 0
      else wrap64 (p.cursorY - cursorParam params)) }

/-- handleCursorDown moves the cursor down by n lines (wrapping int64
addition, unclamped). -/
def AnsiParser.handleCursorDown (p : AnsiParser) (params : List Char) : AnsiParser :=
  { p with cursorY := wrap64 (p.cursorY + cursorParam params) }

/-- handleCursorForward moves the cursor forward by n columns (wrapping
int64 addition, unclamped). -/
def AnsiParser.handleCursorForward (p : AnsiParser) (params : List Char) : AnsiParser :=
  { p with cursorX := wrap64 (p.cursorX + cursorParam params) }

/-- handleCursorBack moves the cursor back by n columns (wrapping int64
subtraction), clamped at 0. -/
def AnsiParser.handleCursorBack (p : AnsiParser) (params : List Char) : AnsiParser :=
  { p with cursorX := (if wrap64 (p.cursorX - cursorParam params) < 0 then 0
      else wrap64 (p.cursorX - cursorParam params)) }

/-- The erase-mode parameter of J/K: defaults to 0, any parsed integer is
accepted (no positivity requirement). -/
def eraseMode (params : List Char) : Int :=
  if params.isEmpty then 0
  else
    match atoi params with
    | some num => num
    | none => 0

/-- The second loop of erase-display mode 1:
`for x := 0; x <= p.cursorX && x < p.grid.Width; x++` resets the cells of row
`cursorY` with index at most `cursorX`.  (Go indexes `Cells[p.cursorY]`
unguarded here and would panic for a cursor row outside the grid; the
modelled `List.set`/`getD` leave the grid unchanged for a row at or beyond
the height and, for a negative row — reachable only after int64 overflow —
write to the `toNat`-clamped row 0 instead of panicking.) -/
def clearRowUpToCursor (tg : TerminalGrid) (cursorX cursorY : Int) : TerminalGrid :=
  { tg with Cells := (tg.Cells.set cursorY.toNat
      ((tg.Cells.getD cursorY.toNat []).mapIdx
        (fun i c => if (i : Int) ≤ cursorX then NewCell else c))) }

/-- handleEraseDisplay clears parts of the display (CSI J).  Mode 0 clears
from the cursor to the end of its line and then every following line; mode 1
clears every line before the cursor's and the cursor's line up to the cursor
column; modes 2 and 3 clear the whole grid.  The Go `for y := a; y < H; y++`
loops over line indices become folds over the index range with the loop
bound as a filter. -/
def AnsiParser.handleEraseDisplay (p : AnsiParser) (params : List Char) : AnsiParser :=
  if eraseMode params = 0 then
    { p with grid := ((List.range p.grid.Height.toNat).foldl
        (fun acc (y : Nat) => if wrap64 (p.cursorY + 1) ≤ (y : Int) then acc.ClearLine (y : Int) else acc)
        (p.grid.ClearFromCursor p.cursorX p.cursorY)) }
  else if eraseMode params = 1 then
    { p with grid := (clearRowUpToCursor
        ((List.range p.grid.Height.toNat).foldl
          (fun acc (y : Nat) => if (y : Int) < p.cursorY then acc.ClearLine (y : Int) else acc)
          p.grid)
        p.cursorX p.cursorY) }
  else if eraseMode params = 2 ∨ eraseMode params = 3 then
    { p with grid := p.grid.Clear }
  else p

/-- handleEraseLine clears parts of the current line (CSI K). -/
def AnsiParser.handleEraseLine (p : AnsiParser) (params : List Char) : AnsiParser :=
  if p.cursorY < 0 ∨ p.grid.Height ≤ p.cursorY then p
  else if eraseMode params = 0 then
    { p with grid := p.grid.ClearFromCursor p.cursorX p.cursorY }
  else if eraseMode params = 1 then
    { p with grid := clearRowUpToCursor p.grid p.cursorX p.cursorY }
  else if eraseMode params = 2 then
    { p with grid := p.grid.ClearLine p.cursorY }
  else p

/-- handleEscapeSequence dispatches on the command character (the last
element of the sequence).  Go takes the last byte of the sequence string;
this only matters when it is one of the ASCII command letters, for which the
byte and the codepoint coincide, so the last codepoint is used here. -/
def AnsiParser.handleEscapeSequence (p : AnsiParser) (seq : List Char) : AnsiParser :=
  match seq.getLast? with
  | none => p
  | some command =>
    let params := seq.dropLast
    if command = 'm' then p.handleSGR params
    else if command = 'H' ∨ command = 'f' then p.handleCursorPosition params
    else if command = 'A' then p.handleCursorUp params
    else if command = 'B' then p.handleCursorDown params
    else if command = 'C' then p.handleCursorForward params
    else if command = 'D' then p.handleCursorBack params
    else if command = 'J' then p.handleEraseDisplay params
    else if command = 'K' then p.handleEraseLine params
    else p

/-- The switch of the regular-character arm of the parse loop over the
codepoint.  Go `/` on ints truncates toward zero (`Int.tdiv`); the cursor
increments and the tab target wrap like Go int64 arithmetic.  (At a negative
cursor coordinate — reachable only after int64 overflow — the write guard
passes and Go's unguarded `Cells[cursorY][cursorX]` index panics, while the
total model writes at the `toNat`-clamped index instead.) -/
def AnsiParser.handleCharAux (p : AnsiParser) (ch : Char) : AnsiParser :=
  if ch = '\n' then { p with cursorX := 0, cursorY := wrap64 (p.cursorY + 1) }
  else if ch = '\r' then { p with cursorX := 0 }
  else if ch = '\t' then { p with cursorX := wrap64 ((p.cursorX.tdiv 8 + 1) * 8) }
  else
    { p with
        grid :=
          if p.cursorY < p.grid.Height ∧ p.cursorX < p.grid.Width then
            p.grid.setAt p.cursorX.toNat p.cursorY.toNat
              { Rune := ch, FgColor := p.fgColor, BgColor := p.bgColor,
                Bold := p.bold, Italic := p.italic, Underline := p.underline,
                Strikethrough := p.strikethrough }
          else p.grid,
        cursorX := wrap64 (p.cursorX + 1) }

/-- The soft-wrap check `if p.cursorX >= p.grid.Width` that follows the
switch (the row increment wraps like Go int64 arithmetic). -/
def AnsiParser.wrapCursor (p : AnsiParser) : AnsiParser :=
  if p.grid.Width ≤ p.cursorX then { p with cursorX := 0, cursorY := wrap64 (p.cursorY + 1) }
  else p

/-- The regular-character arm of the parse loop: the switch on the codepoint
followed by the soft-wrap check. -/
def AnsiParser.handleChar (p : AnsiParser) (ch : Char) : AnsiParser :=
  (p.handleCharAux ch).wrapCursor

/-- The main loop of `ansiParser.parse` over the rune slice.  On seeing the
two-rune prefix ESC `[`, `findSequenceEnd` yields the index of the first
letter of `rest`, or — when no letter exists — its start position, so the
sequence handed to `handleEscapeSequence` is `rest.take (j+1)` and the scan
resumes at `rest.drop (j+1)`.  (When `rest` is empty, Go slices one rune past
the string: with the usual over-allocated rune buffer this reads a NUL rune
whose handling is a no-op, which is what taking from the empty list gives.) -/
def parseLoop (p : AnsiParser) : List Char → AnsiParser
  | [] => p
  | '\x1b' :: '[' :: rest =>
    let j := if rest.any isSeqLetter then rest.findIdx isSeqLetter else 0
    parseLoop (p.handleEscapeSequence (rest.take (j + 1))) (rest.drop (j + 1))
  | c :: rest => parseLoop (p.handleChar c) rest
termination_by l => l.length
decreasing_by
  all_goals simp [List.length_drop]
  omega

/-- The escape-sequence handlers whose cursor arithmetic can overflow
int64 from a state with in-range non-negative cursor coordinates are the
unclamped relative moves B (down) and C (forward); this predicate says the
addition the handler performs stays below `2^63`. -/
def seqNoOverflow (p : AnsiParser) (seq : List Char) : Bool :=
  match seq.getLast? with
  | none => true
  | some command =>
    if command = 'B' then decide (p.cursorY + cursorParam seq.dropLast < 2 ^ 63)
    else if command = 'C' then decide (p.cursorX + cursorParam seq.dropLast < 2 ^ 63)
    else true

/-- No cursor computation of the regular-character arm overflows int64:
the newline row increment, the tab target, the column increment of an
ordinary codepoint, and the row increment of a soft wrap (when it fires)
all stay below `2^63`. -/
def charNoOverflow (p : AnsiParser) (ch : Char) : Bool :=
  (if ch = '\n' then decide (p.cursorY + 1 < 2 ^ 63)
   else if ch = '\r' then true
   else if ch = '\t' then decide ((p.cursorX.tdiv 8 + 1) * 8 < 2 ^ 63)
   else decide (p.cursorX + 1 < 2 ^ 63)) &&
  (if (p.handleCharAux ch).grid.Width ≤ (p.handleCharAux ch).cursorX then
     decide ((p.handleCharAux ch).cursorY + 1 < 2 ^ 63)
   else true)

/-- No cursor computation along the whole parse of the input overflows
int64; mirrors the recursion of `parseLoop`. -/
def parseNoOverflow (p : AnsiParser) : List Char → Bool
  | [] => true
  | '\x1b' :: '[' :: rest =>
    let j := if rest.any isSeqLetter then rest.findIdx isSeqLetter else 0
    seqNoOverflow p (rest.take (j + 1)) &&
      parseNoOverflow (p.handleEscapeSequence (rest.take (j + 1))) (rest.drop (j + 1))
  | c :: rest => charNoOverflow p c && parseNoOverflow (p.handleChar c) rest
termination_by l => l.length
decreasing_by
  all_goals simp [List.length_drop]
  omega

/-- ParseANSI parses a rune sequence containing ANSI escape sequences and
builds a TerminalGrid; returns nil (`none`) when the grid cannot be
created. -/
def ParseANSI (output : List Char) (width height : Int) : Option TerminalGrid :=
  match NewTerminalGrid width height with
  | none => none
  | some grid =>
    let p : AnsiParser :=
      { grid := grid, cursorX := 0, cursorY := 0,
        fgColor := DefaultColor, bgColor := DefaultColor,
        bold := false, italic := false, underline := false, strikethrough := false }
    some (parseLoop p output).grid

/-! ## Program options and startup validation (program.go `validateOptions`, `Run`) -/

/-- ProgramOptions configures the Program's appearance and behavior.
Go `int32` dimensions and `int` sizes are both modelled as `Int`. -/
structure ProgramOptions where
  FontFamily : String
  FontSize : Int
  InitialWidth : Int
  InitialHeight : Int
  WindowTitle : String
  FPS : Int
deriving DecidableEq, Repr

/-- validateOptions validates the program configuration options, returning
the first failing check's error ( Go formats the offending value into the
message; the fixed text is kept here). -/
def validateOptions (o : ProgramOptions) : Option String :=
  if o.InitialWidth ≤ 0 then some "initial width must be positive"
  else if o.InitialHeight ≤ 0 then some "initial height must be positive"
  else if o.FontSize ≤ 0 then some "font size must be positive"
  else if o.FPS < 0 then some "FPS must be non-negative"
  else if o.WindowTitle = "" then some "window title cannot be empty"
  else if o.FontFamily = "" then some "font family cannot be empty"
  else none

/-- The first phase of `Program.Run`: validation happens before any resource
acquisition; `acquiringResources` marks the point where `Run` moves on to
creating the display and window. -/
inductive RunStart where
  | invalidConfig (msg : String)
  | acquiringResources
deriving DecidableEq, Repr

/-- Run validates the configured options first and returns a wrapped error
before touching any resource; otherwise it proceeds to create the Wayland
display and window. -/
def runStart (o : ProgramOptions) : RunStart :=
  match validateOptions o with
  | some msg => .invalidConfig ("invalid configuration: " ++ msg)
  | none => .acquiringResources

/-! ## Message delivery (commands.go `CommandExecutor.deliverMessage`)

The delivery code is
`select { case ce.msgChan <- msg: ... case <-ce.ctx.Done(): ... }` guarded by
`if msg == nil { return }`.  Per the Go select semantics: when at least one
case can proceed, one ready case is chosen (uniformly among the ready ones);
when none can, the goroutine blocks until one can.  The environment of one
delivery attempt is whether the message is nil, whether the buffered channel
has free capacity, and whether the context has been cancelled; the result is
the set of behaviors the select statement may immediately exhibit. -/

/-- One delivery attempt's environment. -/
structure DeliverEnv where
  msgIsNil : Bool
  chanHasSpace : Bool
  ctxCancelled : Bool
deriving DecidableEq, Repr

/-- What a call to deliverMessage can do. -/
inductive DeliverBehavior where
  /-- returns immediately because the message is nil; the channel is untouched -/
  | returnedNil
  /-- the first select case ran: the message was placed on the channel -/
  | sent
  /-- the second select case ran: the message was silently dropped -/
  | dropped
  /-- no select case is ready: the delivering goroutine suspends -/
  | blocked
deriving DecidableEq, Repr

/-- The set of possible immediate behaviors of `deliverMessage` in a given
environment, following the Go select semantics for its two cases. -/
def deliverBehaviors (e : DeliverEnv) : List DeliverBehavior :=
  if e.msgIsNil then [.returnedNil]
  else
    match e.chanHasSpace, e.ctxCancelled with
    | true, false => [.sent]
    | true, true => [.sent, .dropped]
    | false, true => [.dropped]
    | false, false => [.blocked]

/-! ## Redraw decision (program.go `Program.Redraw`)

After draining pending messages, `Redraw` decides whether to render: the
frame-rate cap is checked first, then the idempotent-view check
`view == p.lastView && p.lastView != "" && !hadMessages`, then the surface,
parsed grid, and renderer can each abort the frame.  Only a fully successful
frame updates `lastView`/`lastRender`. -/

/-- The inputs of one redraw tick's render decision. -/
structure RedrawEnv where
  /-- the string returned by `model.View()` this tick -/
  view : String
  /-- `p.lastView`, the previously rendered view -/
  lastView : String
  /-- whether the non-blocking drain loop dequeued any message this tick -/
  hadMessages : Bool
  /-- whether `options.FPS > 0` and less than the minimum frame time elapsed -/
  fpsLimited : Bool
  /-- whether `WindowGetSurface` returns a usable surface -/
  surfaceOk : Bool
  /-- whether `ParseANSI` returns a grid (positive stored dimensions) -/
  gridOk : Bool
  /-- whether `renderer.Render` succeeds -/
  renderOk : Bool
deriving DecidableEq, Repr

/-- How the tail of `Redraw` ends. -/
inductive RedrawOutcome where
  | skippedFrameCap
  | skippedUnchangedView
  | noSurface
  | nilGrid
  | renderFailed
  | rendered
deriving DecidableEq, Repr

/-- The render decision of `Program.Redraw`, in the code's order. -/
def redrawOutcome (e : RedrawEnv) : RedrawOutcome :=
  if e.fpsLimited then .skippedFrameCap
  else if e.view = e.lastView ∧ e.lastView ≠ "" ∧ e.hadMessages = false then .skippedUnchangedView
  else if !e.surfaceOk then .noSurface
  else if !e.gridOk then .nilGrid
  else if !e.renderOk then .renderFailed
  else .rendered

/-- The stored last view after the tick: updated only on a successful
render. -/
def redrawNewLastView (e : RedrawEnv) : String :=
  if redrawOutcome e = .rendered then e.view else e.lastView

/-- Whether `p.lastRender` is updated (set to `time.Now()`) this tick. -/
def redrawUpdatesRenderTime (e : RedrawEnv) : Bool :=
  redrawOutcome e = .rendered

/-- Whether the renderer draws into the window surface this tick (a failed
`Render` call may already have drawn partially). -/
def redrawTouchesSurface (e : RedrawEnv) : Bool :=
  redrawOutcome e = .rendered || redrawOutcome e = .renderFailed

/-! ## Command executor lifecycle (commands.go)

A labelled transition system over the executor's observable state.  The
WaitGroup discipline of the source is: `Execute` (commands.go:84) and
`startTimer` (commands.go:139) call `wg.Add(1)` before spawning their
goroutine, and `Execute`/`startTimer` are themselves invoked either by an
external caller or from inside an already-counted task (`ExecuteBatch`
fan-out, the `everyMsg` case); each goroutine runs `defer wg.Done()`.  So
the counter equals the number of live tasks, every spawn is performed either
externally or by a live task, and `Shutdown` (commands.go:163) first fires
the cancel function of every registered timer and then `wg.Wait()`s, which
returns only when the counter is zero.  Message deliveries are performed
only by live tasks. -/

/-- Observable executor state: the WaitGroup count of live tasks, the timer
registry with the set of already-fired cancel tokens, and the two phases of
`Shutdown`. -/
structure ExecState where
  /-- the WaitGroup counter = number of live (counted) goroutines -/
  live : Nat
  /-- tickers currently in `ce.timers` -/
  registered : List Nat
  /-- timers whose per-timer cancel function has been called -/
  cancelledTimers : List Nat
  /-- Shutdown has executed its cancel loop -/
  shutdownCancelDone : Bool
  /-- `wg.Wait()` inside Shutdown has returned -/
  shutdownReturned : Bool
deriving DecidableEq, Repr

/-- The freshly constructed executor. -/
def ExecState.init : ExecState :=
  { live := 0, registered := [], cancelledTimers := [],
    shutdownCancelDone := false, shutdownReturned := false }

/-- Transition labels; `deliver` marks a message reaching the message
channel. -/
inductive ExecLabel where
  | execute
  | spawnChild
  | registerTimer (t : Nat)
  | deliver
  | finishTask
  | finishTimer (t : Nat)
  | shutdownCancel
  | shutdownReturn
deriving DecidableEq, Repr

/-- One step of the executor.  `execute` models an external `Execute` call
(the claim considers runs with no `Execute` issued after `Shutdown`, hence
the guard); `spawnChild` is a counted task calling `Execute` for a batch
sub-command; `registerTimer` is a counted task running `startTimer`;
`deliver` is a counted task (or timer goroutine) sending to the channel;
`finishTask`/`finishTimer` are `wg.Done()` at goroutine exit, the latter
also removing the ticker from the registry; `shutdownCancel` fires every
registered timer's cancel function; `shutdownReturn` is `wg.Wait()`
returning, possible only at counter zero. -/
inductive ExecStep : ExecState → ExecLabel → ExecState → Prop where
  | execute {s} : ¬s.shutdownCancelDone →
      ExecStep s .execute { s with live := s.live + 1 }
  | spawnChild {s} : 0 < s.live →
      ExecStep s .spawnChild { s with live := s.live + 1 }
  | registerTimer {s t} : 0 < s.live →
      ExecStep s (.registerTimer t) { s with live := s.live + 1, registered := t :: s.registered }
  | deliver {s} : 0 < s.live →
      ExecStep s .deliver s
  | finishTask {s} : 0 < s.live →
      ExecStep s .finishTask { s with live := s.live - 1 }
  | finishTimer {s t} : 0 < s.live →
      ExecStep s (.finishTimer t)
        { s with live := s.live - 1, registered := s.registered.erase t }
  | shutdownCancel {s} : ¬s.shutdownCancelDone →
      ExecStep s .shutdownCancel
        { s with shutdownCancelDone := true,
                 cancelledTimers := s.registered ++ s.cancelledTimers }
  | shutdownReturn {s} : s.shutdownCancelDone → s.live = 0 →
      ExecStep s .shutdownReturn { s with shutdownReturned := true }

/-- An execution: a sequence of labelled steps from a state. -/
inductive ExecTrace : ExecState → List (ExecLabel × ExecState) → Prop where
  | nil {s} : ExecTrace s []
  | cons {s l s' tr} : ExecStep s l s' → ExecTrace s' tr → ExecTrace s ((l, s') :: tr)

/-! ## C5: startup validation -/

/-- C5: `Program.Run` fails with a descriptive error before acquiring any
resource (before the display or window is created) exactly when the
configured options are invalid: `InitialWidth <= 0`, `InitialHeight <= 0`,
`FontSize <= 0`, `FPS < 0`, empty `WindowTitle`, or empty `FontFamily`;
with all constraints satisfied, validation passes and `Run` proceeds to
resource acquisition. -/
theorem run_validates_before_resources (o : ProgramOptions) :
    ((∃ msg, runStart o = .invalidConfig msg) ↔
      (o.InitialWidth ≤ 0 ∨ o.InitialHeight ≤ 0 ∨ o.FontSize ≤ 0 ∨ o.FPS < 0 ∨
       o.WindowTitle = "" ∨ o.FontFamily = "")) ∧
    (runStart o = .acquiringResources ↔
      (0 < o.InitialWidth ∧ 0 < o.InitialHeight ∧ 0 < o.FontSize ∧ 0 ≤ o.FPS ∧
       o.WindowTitle ≠ "" ∧ o.FontFamily ≠ "")) := by
  unfold runStart validateOptions
  split_ifs <;> simp_all

/-! ## C2: message delivery under backpressure -/

/-- C2 counterexample: a delivery attempt of a non-nil message against a
full channel with a live (non-cancelled) context does not drop the message;
its only possible behavior is to block the sender, contradicting the claimed
non-blocking drop. -/
theorem deliver_full_channel_blocks :
    deliverBehaviors { msgIsNil := false, chanHasSpace := false, ctxCancelled := false } =
      [.blocked] ∧
    DeliverBehavior.dropped ∉
      deliverBehaviors { msgIsNil := false, chanHasSpace := false, ctxCancelled := false } := by
  decide

/-- C2 (amended): a non-nil message is dropped (without blocking) when the
executor's context has been cancelled; but when the bounded channel is full
and the context is not cancelled the delivering task blocks until space or
cancellation arrives — blocking happens exactly in that situation — and a
nil message is discarded without touching the channel. -/
theorem deliver_behavior_spec (e : DeliverEnv) :
    (e.msgIsNil = false → e.ctxCancelled = true →
      DeliverBehavior.dropped ∈ deliverBehaviors e) ∧
    (e.msgIsNil = false → e.chanHasSpace = false → e.ctxCancelled = false →
      deliverBehaviors e = [.blocked]) ∧
    (DeliverBehavior.blocked ∈ deliverBehaviors e →
      e.msgIsNil = false ∧ e.chanHasSpace = false ∧ e.ctxCancelled = false) ∧
    (e.msgIsNil = true → deliverBehaviors e = [.returnedNil]) := by
  obtain ⟨a, b, c⟩ := e
  cases a <;> cases b <;> cases c <;> decide

/-- Witness for the amended C2 statement at a concrete environment: with the
context cancelled and the channel full, the message can be dropped. -/
theorem deliver_behavior_spec_witness :
    DeliverBehavior.dropped ∈
      deliverBehaviors { msgIsNil := false, chanHasSpace := false, ctxCancelled := true } :=
  (deliver_behavior_spec { msgIsNil := false, chanHasSpace := false, ctxCancelled := true }).1
    rfl rfl

/-! ## C8: idempotent-view optimization -/

/-- C8 counterexample: on a tick with no frame-rate limit, no messages, and
a view string equal to the previously rendered view — both empty — the code
does not skip: with a usable surface, grid, and renderer it renders and
updates the last-render time, so the skip is not independent of the view
string's content. -/
theorem redraw_empty_view_renders :
    redrawOutcome { view := "", lastView := "", hadMessages := false, fpsLimited := false,
                    surfaceOk := true, gridOk := true, renderOk := true } = .rendered ∧
    redrawUpdatesRenderTime { view := "", lastView := "", hadMessages := false,
                              fpsLimited := false, surfaceOk := true, gridOk := true,
                              renderOk := true } = true := by
  decide

/-- C8 (amended): on a redraw tick where the frame-rate cap does not apply,
rendering is skipped by the idempotent-view check exactly when the view
equals the previously rendered view, the previous view is non-empty, and no
messages were drained this tick; on such a skip the stored last view, the
last-render time, and the surface are left unchanged. -/
theorem redraw_skip_spec (e : RedrawEnv) (hf : e.fpsLimited = false) :
    (redrawOutcome e = .skippedUnchangedView ↔
      (e.view = e.lastView ∧ e.lastView ≠ "" ∧ e.hadMessages = false)) ∧
    (e.view = e.lastView → e.lastView ≠ "" → e.hadMessages = false →
      redrawNewLastView e = e.lastView ∧ redrawUpdatesRenderTime e = false ∧
      redrawTouchesSurface e = false) := by
  have hiff : redrawOutcome e = .skippedUnchangedView ↔
      (e.view = e.lastView ∧ e.lastView ≠ "" ∧ e.hadMessages = false) := by
    unfold redrawOutcome
    rw [hf]
    split_ifs <;> simp_all
  refine ⟨hiff, fun h1 h2 h3 => ?_⟩
  have hout : redrawOutcome e = .skippedUnchangedView := hiff.mpr ⟨h1, h2, h3⟩
  unfold redrawNewLastView redrawUpdatesRenderTime redrawTouchesSurface
  rw [hout]
  simp

/-- Witness for the amended C8 statement at a concrete environment: an
unchanged non-empty view with no messages is skipped and leaves the stored
state untouched. -/
theorem redraw_skip_spec_witness :
    redrawNewLastView { view := "a", lastView := "a", hadMessages := false,
                        fpsLimited := false, surfaceOk := true, gridOk := true,
                        renderOk := true } = "a" ∧
    redrawUpdatesRenderTime { view := "a", lastView := "a", hadMessages := false,
                              fpsLimited := false, surfaceOk := true, gridOk := true,
                              renderOk := true } = false ∧
    redrawTouchesSurface { view := "a", lastView := "a", hadMessages := false,
                           fpsLimited := false, surfaceOk := true, gridOk := true,
                           renderOk := true } = false :=
  (redraw_skip_spec { view := "a", lastView := "a", hadMessages := false,
                      fpsLimited := false, surfaceOk := true, gridOk := true,
                      renderOk := true } rfl).2 rfl (by decide) rfl

/-! ## C4: executor shutdown -/

/-- Invariant of the executor: once `wg.Wait()` has returned inside
`Shutdown`, the cancel loop has already run and the task counter is zero. -/
def ExecInv (s : ExecState) : Prop :=
  s.shutdownReturned = true → s.shutdownCancelDone = true ∧ s.live = 0

theorem execInv_init : ExecInv ExecState.init := by
  intro h
  simp [ExecState.init] at h

theorem execStep_preserves_inv {s l s'} (h : ExecStep s l s') (hs : ExecInv s) :
    ExecInv s' := by
  cases h with
  | execute hg => intro hr; exact absurd (hs hr).1 hg
  | spawnChild hg => intro hr; exact absurd (hs hr).2 (by omega)
  | registerTimer hg => intro hr; exact absurd (hs hr).2 (by omega)
  | deliver hg => exact hs
  | finishTask hg => intro hr; exact absurd (hs hr).2 (by omega)
  | finishTimer hg => intro hr; exact absurd (hs hr).2 (by omega)
  | shutdownCancel hg => intro hr; exact ⟨rfl, (hs hr).2⟩
  | shutdownReturn hc hl => intro _; exact ⟨hc, hl⟩

/-- From a state where `Shutdown` has returned, no step can be a delivery,
and the returned flag persists. -/
theorem execStep_after_return {s l s'} (h : ExecStep s l s') (hs : ExecInv s)
    (hr : s.shutdownReturned = true) :
    l ≠ ExecLabel.deliver ∧ s'.shutdownReturned = true := by
  obtain ⟨hc, hl⟩ := hs hr
  cases h with
  | execute hg => exact ⟨by simp, hr⟩
  | spawnChild hg => exact absurd hl (by omega)
  | registerTimer hg => exact absurd hl (by omega)
  | deliver hg => exact absurd hl (by omega)
  | finishTask hg => exact absurd hl (by omega)
  | finishTimer hg => exact absurd hl (by omega)
  | shutdownCancel hg => exact ⟨by simp, hr⟩
  | shutdownReturn _ _ => exact ⟨by simp, rfl⟩

theorem execTrace_no_deliver_after_return :
    ∀ {s tr}, ExecTrace s tr → ExecInv s → s.shutdownReturned = true →
      ∀ q ∈ tr, q.1 ≠ ExecLabel.deliver := by
  intro s tr h
  induction h with
  | nil => intro _ _ q hq; simp at hq
  | cons hstep htr ih =>
    intro hs hr q hq
    obtain ⟨hnd, hret⟩ := execStep_after_return hstep hs hr
    rcases List.mem_cons.mp hq with hql | hq'
    · rw [hql]; exact hnd
    · exact ih (execStep_preserves_inv hstep hs) hret q hq'

/-- The state recorded in the trace right before a suffix really is the
state the suffix runs from, and it satisfies the invariant. -/
theorem execTrace_split :
    ∀ pre {s : ExecState} {p : ExecLabel × ExecState} {post}, ExecTrace s (pre ++ p :: post) →
      ExecInv s → ExecTrace p.2 post ∧ ExecInv p.2 := by
  intro pre
  induction pre with
  | nil =>
    intro s p post h hs
    cases h with
    | cons hstep htr => exact ⟨htr, execStep_preserves_inv hstep hs⟩
  | cons q pre ih =>
    intro s p post h hs
    cases h with
    | cons hstep htr => exact ih htr (execStep_preserves_inv hstep hs)

/-- C4: `CommandExecutor.Shutdown` cancels every recurring timer registered
at that moment, returns from its wait only once the outstanding-task counter
is zero (so every task, including nested batch fan-outs already counted, has
completed), and in any execution from a fresh executor with no `Execute`
issued after `Shutdown` began, no message delivery happens after the point
where `Shutdown`'s wait has returned. -/
theorem executor_shutdown_spec :
    (∀ s s', ExecStep s ExecLabel.shutdownCancel s' →
      ∀ t ∈ s.registered, t ∈ s'.cancelledTimers) ∧
    (∀ s s', ExecStep s ExecLabel.shutdownReturn s' →
      s.shutdownCancelDone = true ∧ s.live = 0) ∧
    (∀ tr pre (p : ExecLabel × ExecState) post, ExecTrace ExecState.init tr →
      tr = pre ++ p :: post → p.2.shutdownReturned = true →
      ∀ q ∈ post, q.1 ≠ ExecLabel.deliver) := by
  refine ⟨?_, ?_, ?_⟩
  · intro s s' h t ht
    cases h with
    | shutdownCancel hg => exact List.mem_append_left _ ht
  · intro s s' h
    cases h with
    | shutdownReturn hc hl => exact ⟨hc, hl⟩
  · intro tr pre p post h heq hret
    subst heq
    obtain ⟨htr, hinv⟩ := execTrace_split pre h execInv_init
    exact execTrace_no_deliver_after_return htr hinv hret

/-- Witness for C4 at a concrete state: from a quiescent executor whose
cancel loop has run, the wait step certifies that the counter is zero. -/
theorem executor_shutdown_spec_witness :
    ({ live := 0, registered := [], cancelledTimers := [], shutdownCancelDone := true,
       shutdownReturned := false } : ExecState).shutdownCancelDone = true ∧
    ({ live := 0, registered := [], cancelledTimers := [], shutdownCancelDone := true,
       shutdownReturned := false } : ExecState).live = 0 :=
  executor_shutdown_spec.2.1 _ _ (ExecStep.shutdownReturn rfl rfl)

/-! ## C10: grid construction -/

/-- C10: `NewTerminalGrid(width, height)` returns nil exactly when a
dimension is non-positive (and consequently `ParseANSI` returns nil for
non-positive dimensions); for positive dimensions every cell of the fresh
grid is the blank cell: rune space, default foreground and background, and
all four style flags false. -/
theorem newTerminalGrid_spec (w h : Int) :
    (NewTerminalGrid w h = none ↔ w ≤ 0 ∨ h ≤ 0) ∧
    (∀ input, w ≤ 0 ∨ h ≤ 0 → ParseANSI input w h = none) ∧
    (∀ g, NewTerminalGrid w h = some g →
      g.Width = w ∧ g.Height = h ∧ g.WF ∧
      ∀ row ∈ g.Cells, ∀ c ∈ row,
        c.Rune = ' ' ∧ c.FgColor = DefaultColor ∧ c.BgColor = DefaultColor ∧
        c.Bold = false ∧ c.Italic = false ∧ c.Underline = false ∧
        c.Strikethrough = false) := by
  refine ⟨?_, ?_, ?_⟩
  · unfold NewTerminalGrid
    split_ifs with hcond <;> simp [hcond]
  · intro input hcond
    unfold ParseANSI NewTerminalGrid
    rw [if_pos hcond]
  · intro g hg
    unfold NewTerminalGrid at hg
    split_ifs at hg with hcond
    obtain rfl := Option.some_inj.mp hg
    refine ⟨rfl, rfl, ⟨by simp, ?_⟩, ?_⟩
    · intro row hrow
      rw [List.eq_of_mem_replicate hrow]
      simp
    · intro row hrow c hc
      rw [List.eq_of_mem_replicate hrow] at hc
      rw [List.eq_of_mem_replicate hc]
      exact ⟨rfl, rfl, rfl, rfl, rfl, rfl, rfl⟩

/-- Witness for C10 at concrete dimensions: non-positive width forces a nil
grid and a nil parse, and the 2-by-1 grid is entirely blank. -/
theorem newTerminalGrid_spec_witness :
    NewTerminalGrid 0 3 = none ∧ ParseANSI ['a'] (-1) 3 = none ∧
    ∀ row ∈ (TerminalGrid.mk 2 1 [[NewCell, NewCell]]).Cells, ∀ c ∈ row,
      c.Rune = ' ' ∧ c.FgColor = DefaultColor ∧ c.BgColor = DefaultColor ∧
      c.Bold = false ∧ c.Italic = false ∧ c.Underline = false ∧
      c.Strikethrough = false :=
  ⟨(newTerminalGrid_spec 0 3).1.mpr (by decide),
   (newTerminalGrid_spec (-1) 3).2.1 ['a'] (by decide),
   ((newTerminalGrid_spec 2 1).2.2 (TerminalGrid.mk 2 1 [[NewCell, NewCell]])
      (by decide)).2.2.2⟩

/-! ## C7: 256-color resolution -/

/-- Go's `uint8` conversion is the identity modulo 256 on natural values. -/
theorem u8_coe (a : Nat) : u8 (a : Int) = a % 256 := rfl

/-- C7: the 256-color resolution maps codes 0-15 through the fixed 16-entry
RGB table (code 1 to (128,0,0), code 15 to (255,255,255)), maps each code
16-231 to the 6x6x6 cube color whose components are the cube indices times
51, maps each code 232-255 to the grayscale value (code-232)*10+8 in all
three channels, and yields the default-color sentinel outside 0-255. -/
theorem ansi256Color_spec :
    ansi256Color 1 = { R := 128, G := 0, B := 0, IsDefault := false } ∧
    ansi256Color 15 = { R := 255, G := 255, B := 255, IsDefault := false } ∧
    (∀ c : Int, 0 ≤ c → c ≤ 15 →
      ansi256Color c = ansi16Palette.getD c.toNat DefaultColor) ∧
    (∀ c : Int, 16 ≤ c → c ≤ 231 → ∃ i j k : Nat, i ≤ 5 ∧ j ≤ 5 ∧ k ≤ 5 ∧
      c = 16 + 36 * i + 6 * j + k ∧
      ansi256Color c = { R := i * 51, G := j * 51, B := k * 51, IsDefault := false }) ∧
    (∀ c : Int, 232 ≤ c → c ≤ 255 → ∃ v : Nat, (v : Int) = (c - 232) * 10 + 8 ∧
      ansi256Color c = { R := v, G := v, B := v, IsDefault := false }) ∧
    (∀ c : Int, c < 0 ∨ 255 < c → ansi256Color c = DefaultColor) := by
  refine ⟨by decide, by decide, ?_, ?_, ?_, ?_⟩
  · intro c h1 h2
    unfold ansi256Color ansi16Color
    rw [if_neg (by omega), if_pos (by omega), if_pos ⟨h1, by omega⟩]
  · intro c h1 h2
    obtain ⟨n, rfl⟩ : ∃ n : Nat, c = (n : Int) := ⟨c.toNat, by omega⟩
    have hn1 : 16 ≤ n := by exact_mod_cast h1
    have hn2 : n ≤ 231 := by exact_mod_cast h2
    refine ⟨(n - 16) / 36, ((n - 16) % 36) / 6, (n - 16) % 6,
      by omega, by omega, by omega, by push_cast; omega, ?_⟩
    unfold ansi256Color
    rw [if_neg (by omega), if_neg (by omega), if_pos ⟨h1, h2⟩]
    have hm : (n : Int) - 16 = ((n - 16 : Nat) : Int) := by omega
    rw [hm]
    have e1 : (((n - 16 : Nat) : Int)).tdiv 36 = (((n - 16) / 36 : Nat) : Int) := rfl
    have e2 : (((n - 16 : Nat) : Int)).tmod 36 = (((n - 16) % 36 : Nat) : Int) := rfl
    have e3 : (((n - 16 : Nat) : Int)).tmod 6 = (((n - 16) % 6 : Nat) : Int) := rfl
    have e4 : ((((n - 16) % 36 : Nat) : Int)).tdiv 6 = ((((n - 16) % 36) / 6 : Nat) : Int) := rfl
    have f1 : ((((n - 16) / 36 : Nat) : Int)) * 51 = (((n - 16) / 36 * 51 : Nat) : Int) := by
      push_cast; ring
    have f2 : (((((n - 16) % 36) / 6 : Nat) : Int)) * 51 =
        ((((n - 16) % 36) / 6 * 51 : Nat) : Int) := by
      push_cast; ring
    have f3 : ((((n - 16) % 6 : Nat) : Int)) * 51 = (((n - 16) % 6 * 51 : Nat) : Int) := by
      push_cast; ring
    rw [e1, e2, e3, e4, f1, f2, f3, u8_coe, u8_coe, u8_coe]
    simp only [NewColor, Color.mk.injEq]
    refine ⟨?_, ?_, ?_, trivial⟩ <;> omega
  · intro c h1 h2
    obtain ⟨n, rfl⟩ : ∃ n : Nat, c = (n : Int) := ⟨c.toNat, by omega⟩
    have hn1 : 232 ≤ n := by exact_mod_cast h1
    refine ⟨(n - 232) * 10 + 8, by push_cast; omega, ?_⟩
    unfold ansi256Color
    rw [if_neg (by omega), if_neg (by omega),
        if_neg (by omega), if_pos h1]
    have hm : ((n : Int) - 232) * 10 + 8 = (((n - 232) * 10 + 8 : Nat) : Int) := by
      push_cast; omega
    rw [hm, u8_coe]
    simp only [NewColor, Color.mk.injEq]
    have hle : n ≤ 255 := by exact_mod_cast h2
    refine ⟨?_, ?_, ?_, trivial⟩ <;> omega
  · intro c h
    unfold ansi256Color
    rw [if_pos h]

/-- Witness for C7 at concrete codes: the cube decomposition of code 100 and
the grayscale value of code 240. -/
theorem ansi256Color_spec_witness :
    (∃ i j k : Nat, i ≤ 5 ∧ j ≤ 5 ∧ k ≤ 5 ∧ (100 : Int) = 16 + 36 * i + 6 * j + k ∧
      ansi256Color 100 = { R := i * 51, G := j * 51, B := k * 51, IsDefault := false }) ∧
    (∃ v : Nat, (v : Int) = ((240 : Int) - 232) * 10 + 8 ∧
      ansi256Color 240 = { R := v, G := v, B := v, IsDefault := false }) :=
  ⟨ansi256Color_spec.2.2.2.1 100 (by decide) (by decide),
   ansi256Color_spec.2.2.2.2.1 240 (by decide) (by decide)⟩

/-! ## Cell write lemmas -/

theorem cellAt_setAt_self (tg : TerminalGrid) (x y : Nat) (c : Cell)
    (hy : y < tg.Cells.length) (hx : x < (tg.Cells.getD y []).length) :
    (tg.setAt x y c).cellAt x y = c := by
  unfold TerminalGrid.setAt TerminalGrid.cellAt
  have h1 : (tg.Cells.set y ((tg.Cells.getD y []).set x c)).getD y [] =
      (tg.Cells.getD y []).set x c := by
    simp [List.getD_eq_getElem?_getD, List.getElem?_set_self, hy]
  rw [h1]
  rw [List.getD_eq_getElem?_getD] at hx
  simp [List.getD_eq_getElem?_getD, List.getElem?_set_self, hx]

theorem cellAt_setAt_ne (tg : TerminalGrid) (x y x' y' : Nat) (c : Cell)
    (h : ¬(x' = x ∧ y' = y)) :
    (tg.setAt x y c).cellAt x' y' = tg.cellAt x' y' := by
  unfold TerminalGrid.setAt TerminalGrid.cellAt
  by_cases hy : y' = y
  · subst hy
    have hx : x' ≠ x := fun hx => h ⟨hx, rfl⟩
    by_cases hlen : y' < tg.Cells.length
    · have h1 : (tg.Cells.set y' ((tg.Cells.getD y' []).set x c)).getD y' [] =
          (tg.Cells.getD y' []).set x c := by
        simp [List.getD_eq_getElem?_getD, List.getElem?_set_self, hlen]
      rw [h1]
      simp [List.getD_eq_getElem?_getD, List.getElem?_set_ne, Ne.symm hx]
    · rw [List.set_eq_of_length_le (by omega)]
  · have h1 : (tg.Cells.set y ((tg.Cells.getD y []).set x c)).getD y' [] =
        tg.Cells.getD y' [] := by
      simp [List.getD_eq_getElem?_getD, List.getElem?_set_ne, Ne.symm hy]
    rw [h1]

/-! ## C6: plain-character handling -/

theorem wrap64_lb (n : Int) : -(2 ^ 63) ≤ wrap64 n := by
  unfold wrap64
  omega

theorem wrap64_ub (n : Int) : wrap64 n < 2 ^ 63 := by
  unfold wrap64
  omega

/-- int64 arithmetic only wraps outside `[-2^63, 2^63)`. -/
theorem wrap64_eq_self (n : Int) (h1 : -(2 ^ 63) ≤ n) (h2 : n < 2 ^ 63) :
    wrap64 n = n := by
  unfold wrap64
  omega

theorem wrapCursor_eq_of_lt (p : AnsiParser) (h : p.cursorX < p.grid.Width) :
    p.wrapCursor = p := by
  unfold AnsiParser.wrapCursor
  rw [if_neg (by omega)]

theorem wrapCursor_eq_of_ge (p : AnsiParser) (h : p.grid.Width ≤ p.cursorX)
    (h0 : -(2 ^ 63) ≤ p.cursorY) (h1 : p.cursorY + 1 < 2 ^ 63) :
    p.wrapCursor = { p with cursorX := 0, cursorY := p.cursorY + 1 } := by
  unfold AnsiParser.wrapCursor
  rw [if_pos h, wrap64_eq_self (p.cursorY + 1) (by omega) h1]

theorem wrapCursor_grid (p : AnsiParser) : p.wrapCursor.grid = p.grid := by
  unfold AnsiParser.wrapCursor
  split_ifs <;> rfl

/-- C6 (amended): for a parser state with a non-negative cursor over a grid
of positive width, and with the cursor coordinates small enough that the
int64 cursor arithmetic cannot overflow (`cursorX + 8 < 2^63` covers the
column increment and the tab target, `cursorY + 1 < 2^63` the row
increment — without these bounds the increments wrap, see the
counterexample), a newline sets the column to 0 and increments the row; a
carriage return sets the column to 0; a tab advances the column to the next
multiple of 8 (wrapping to column 0 of the next row if that reaches the
width); any other codepoint writes a cell carrying the current style and
color state at the cursor position when it is inside the grid (leaving every
other cell unchanged) and writes nothing otherwise, then advances the column
by one; and whenever the column reaches the grid width it wraps to column 0
of the next row, independent of newline. -/
theorem handleChar_spec (p : AnsiParser) (c : Char)
    (hwf : p.grid.WF) (hx : 0 ≤ p.cursorX) (hy : 0 ≤ p.cursorY)
    (hw : 0 < p.grid.Width)
    (hxb : p.cursorX + 8 < 2 ^ 63) (hyb : p.cursorY + 1 < 2 ^ 63) :
    (c = '\n' → p.handleChar c = { p with cursorX := 0, cursorY := p.cursorY + 1 }) ∧
    (c = '\r' → p.handleChar c = { p with cursorX := 0 }) ∧
    (c = '\t' →
      (p.cursorX < (p.cursorX.tdiv 8 + 1) * 8 ∧
       (p.cursorX.tdiv 8 + 1) * 8 ≤ p.cursorX + 8 ∧
       ((p.cursorX.tdiv 8 + 1) * 8) % 8 = 0) ∧
      ((p.cursorX.tdiv 8 + 1) * 8 < p.grid.Width →
        p.handleChar c = { p with cursorX := (p.cursorX.tdiv 8 + 1) * 8 }) ∧
      (p.grid.Width ≤ (p.cursorX.tdiv 8 + 1) * 8 →
        p.handleChar c = { p with cursorX := 0, cursorY := p.cursorY + 1 })) ∧
    (c ≠ '\n' → c ≠ '\r' → c ≠ '\t' →
      ((p.cursorY < p.grid.Height → p.cursorX < p.grid.Width →
         (p.handleChar c).grid.cellAt p.cursorX.toNat p.cursorY.toNat =
           { Rune := c, FgColor := p.fgColor, BgColor := p.bgColor, Bold := p.bold,
             Italic := p.italic, Underline := p.underline,
             Strikethrough := p.strikethrough } ∧
         ∀ x y : Nat, ¬(x = p.cursorX.toNat ∧ y = p.cursorY.toNat) →
           (p.handleChar c).grid.cellAt x y = p.grid.cellAt x y) ∧
       (¬(p.cursorY < p.grid.Height ∧ p.cursorX < p.grid.Width) →
         (p.handleChar c).grid = p.grid)) ∧
      ((p.cursorX + 1 < p.grid.Width →
         (p.handleChar c).cursorX = p.cursorX + 1 ∧ (p.handleChar c).cursorY = p.cursorY) ∧
       (p.grid.Width ≤ p.cursorX + 1 →
         (p.handleChar c).cursorX = 0 ∧ (p.handleChar c).cursorY = p.cursorY + 1))) := by
  refine ⟨?_, ?_, ?_, ?_⟩
  · intro hc
    subst hc
    unfold AnsiParser.handleChar
    have haux : p.handleCharAux '\n' = { p with cursorX := 0, cursorY := p.cursorY + 1 } := by
      unfold AnsiParser.handleCharAux
      rw [if_pos rfl, wrap64_eq_self (p.cursorY + 1) (by omega) hyb]
    rw [haux]
    exact wrapCursor_eq_of_lt _ (by simpa using hw)
  · intro hc
    subst hc
    unfold AnsiParser.handleChar
    have haux : p.handleCharAux '\r' = { p with cursorX := 0 } := by
      unfold AnsiParser.handleCharAux
      rw [if_neg (by decide), if_pos rfl]
    rw [haux]
    exact wrapCursor_eq_of_lt _ (by simpa using hw)
  · intro hc
    subst hc
    obtain ⟨n, hn⟩ : ∃ n : Nat, p.cursorX = (n : Int) := ⟨p.cursorX.toNat, by omega⟩
    have htd : (p.cursorX).tdiv 8 = ((n / 8 : Nat) : Int) := by rw [hn]; rfl
    have hcast : ((p.cursorX.tdiv 8 + 1) * 8 : Int) = (((n / 8 + 1) * 8 : Nat) : Int) := by
      rw [htd]; push_cast; ring
    have hub : (p.cursorX.tdiv 8 + 1) * 8 < 2 ^ 63 := by
      rw [hn] at hxb
      have hle : (n / 8 + 1) * 8 ≤ n + 8 := by omega
      rw [hcast]
      omega
    have hwt : wrap64 ((p.cursorX.tdiv 8 + 1) * 8) = (p.cursorX.tdiv 8 + 1) * 8 :=
      wrap64_eq_self _ (by rw [hcast]; omega) hub
    have haux : p.handleCharAux '\t' =
        { p with cursorX := (p.cursorX.tdiv 8 + 1) * 8 } := by
      unfold AnsiParser.handleCharAux
      rw [if_neg (by decide), if_neg (by decide), if_pos rfl, hwt]
    refine ⟨⟨?_, ?_, ?_⟩, ?_, ?_⟩
    · rw [hcast, hn]; omega
    · rw [hcast, hn]; omega
    · rw [hcast]; omega
    · intro hlt
      unfold AnsiParser.handleChar
      rw [haux]
      exact wrapCursor_eq_of_lt _ (by simpa using hlt)
    · intro hge
      unfold AnsiParser.handleChar
      rw [haux]
      rw [wrapCursor_eq_of_ge _ (by simpa using hge)
        (by show -(2 ^ 63) ≤ p.cursorY; omega)
        (by show p.cursorY + 1 < 2 ^ 63; omega)]
  · intro h1 h2 h3
    have hw64X : wrap64 (p.cursorX + 1) = p.cursorX + 1 :=
      wrap64_eq_self _ (by omega) (by omega)
    have haux : p.handleCharAux c =
        { p with
            grid :=
              if p.cursorY < p.grid.Height ∧ p.cursorX < p.grid.Width then
                p.grid.setAt p.cursorX.toNat p.cursorY.toNat
                  { Rune := c, FgColor := p.fgColor, BgColor := p.bgColor,
                    Bold := p.bold, Italic := p.italic, Underline := p.underline,
                    Strikethrough := p.strikethrough }
              else p.grid,
            cursorX := p.cursorX + 1 } := by
      unfold AnsiParser.handleCharAux
      rw [if_neg h1, if_neg h2, if_neg h3, hw64X]
    have hgrid : (p.handleChar c).grid =
        (if p.cursorY < p.grid.Height ∧ p.cursorX < p.grid.Width then
          p.grid.setAt p.cursorX.toNat p.cursorY.toNat
            { Rune := c, FgColor := p.fgColor, BgColor := p.bgColor,
              Bold := p.bold, Italic := p.italic, Underline := p.underline,
              Strikethrough := p.strikethrough }
        else p.grid) := by
      unfold AnsiParser.handleChar
      rw [haux, wrapCursor_grid]
    refine ⟨⟨?_, ?_⟩, ?_, ?_⟩
    · intro hYH hXW
      rw [hgrid, if_pos ⟨hYH, hXW⟩]
      obtain ⟨hlen, hrows⟩ := hwf
      constructor
      · apply cellAt_setAt_self
        · omega
        · have hin : p.cursorY.toNat < p.grid.Cells.length := by omega
          have hmem : p.grid.Cells.getD p.cursorY.toNat [] ∈ p.grid.Cells := by
            rw [List.getD_eq_getElem?_getD, List.getElem?_eq_getElem hin]
            exact List.getElem_mem hin
          rw [hrows _ hmem]
          omega
      · intro x y hxy
        exact cellAt_setAt_ne _ _ _ _ _ _ hxy
    · intro hnb
      rw [hgrid, if_neg hnb]
    · intro hlt
      unfold AnsiParser.handleChar
      have hW : ({ p with
          grid :=
            if p.cursorY < p.grid.Height ∧ p.cursorX < p.grid.Width then
              p.grid.setAt p.cursorX.toNat p.cursorY.toNat
                { Rune := c, FgColor := p.fgColor, BgColor := p.bgColor,
                  Bold := p.bold, Italic := p.italic, Underline := p.underline,
                  Strikethrough := p.strikethrough }
            else p.grid,
          cursorX := p.cursorX + 1 } : AnsiParser).grid.Width = p.grid.Width := by
        split_ifs <;> rfl
      rw [haux, wrapCursor_eq_of_lt _ (lt_of_lt_of_eq hlt hW.symm)]
      exact ⟨rfl, rfl⟩
    · intro hge
      unfold AnsiParser.handleChar
      have hW : ({ p with
          grid :=
            if p.cursorY < p.grid.Height ∧ p.cursorX < p.grid.Width then
              p.grid.setAt p.cursorX.toNat p.cursorY.toNat
                { Rune := c, FgColor := p.fgColor, BgColor := p.bgColor,
                  Bold := p.bold, Italic := p.italic, Underline := p.underline,
                  Strikethrough := p.strikethrough }
            else p.grid,
          cursorX := p.cursorX + 1 } : AnsiParser).grid.Width = p.grid.Width := by
        split_ifs <;> rfl
      rw [haux, wrapCursor_eq_of_ge _ (le_of_eq_of_le hW hge)
        (by show -(2 ^ 63) ≤ p.cursorY; omega)
        (by show p.cursorY + 1 < 2 ^ 63; omega)]
      exact ⟨rfl, rfl⟩

/-! ## C9: the cursor never becomes negative -/

/-- The relative-move parameter is always at least 1. -/
theorem cursorParam_pos (params : List Char) : 1 ≤ cursorParam params := by
  unfold cursorParam
  split_ifs
  · omega
  · cases atoi params with
    | none => simp
    | some num =>
      simp only []
      split_ifs <;> omega

/-- A single SGR step never touches the cursor. -/
theorem sgrStep_cursor (p : AnsiParser) (code : Int) (rest : List Int) :
    (sgrStep p code rest).1.cursorX = p.cursorX ∧
    (sgrStep p code rest).1.cursorY = p.cursorY :=
  (sgrStep_length_cursor p code rest).2

/-- SGR processing never touches the cursor. -/
theorem applySGR_cursor (codes : List Int) (p : AnsiParser) :
    (applySGR p codes).cursorX = p.cursorX ∧ (applySGR p codes).cursorY = p.cursorY := by
  have key : ∀ n (codes : List Int), codes.length ≤ n → ∀ p : AnsiParser,
      (applySGR p codes).cursorX = p.cursorX ∧ (applySGR p codes).cursorY = p.cursorY := by
    intro n
    induction n with
    | zero =>
      intro codes hlen p
      match codes with
      | [] => simp [applySGR]
    | succ n ih =>
      intro codes hlen p
      match codes with
      | [] => simp [applySGR]
      | code :: rest =>
        rw [applySGR]
        have hlen2 : (sgrStep p code rest).2.length ≤ n := by
          have := sgrStep_snd_length p code rest
          simp at hlen
          omega
        obtain ⟨e1, e2⟩ := ih _ hlen2 (sgrStep p code rest).1
        obtain ⟨f1, f2⟩ := sgrStep_cursor p code rest
        exact ⟨by rw [e1, f1], by rw [e2, f2]⟩
  exact key codes.length codes (le_refl _) p

theorem handleSGR_cursor (p : AnsiParser) (params : List Char) :
    (p.handleSGR params).cursorX = p.cursorX ∧ (p.handleSGR params).cursorY = p.cursorY := by
  unfold AnsiParser.handleSGR
  exact applySGR_cursor _ p

/-- The erase handlers only modify the grid. -/
theorem handleEraseDisplay_cursor (p : AnsiParser) (params : List Char) :
    (p.handleEraseDisplay params).cursorX = p.cursorX ∧
    (p.handleEraseDisplay params).cursorY = p.cursorY := by
  unfold AnsiParser.handleEraseDisplay
  split_ifs <;> exact ⟨rfl, rfl⟩

theorem handleEraseLine_cursor (p : AnsiParser) (params : List Char) :
    (p.handleEraseLine params).cursorX = p.cursorX ∧
    (p.handleEraseLine params).cursorY = p.cursorY := by
  unfold AnsiParser.handleEraseLine
  split_ifs <;> exact ⟨rfl, rfl⟩

/-- Atoi only returns values in the int64 range. -/
theorem atoi_range (s : List Char) (n : Int) (h : atoi s = some n) :
    -(2 ^ 63) ≤ n ∧ n < 2 ^ 63 := by
  unfold atoi at h
  split at h
  all_goals
    simp only [] at h
    split_ifs at h with h1 h2
    simp only [Option.some.injEq] at h
    omega

/-- The relative-move parameter is always below `2^63` (Atoi rejects larger
values). -/
theorem cursorParam_lt (params : List Char) : cursorParam params < 2 ^ 63 := by
  unfold cursorParam
  split_ifs
  · omega
  · rcases ha : atoi params with _ | num
    · show (1 : Int) < 2 ^ 63
      omega
    · have := atoi_range params num ha
      show (if 0 < num then num else 1) < 2 ^ 63
      split_ifs <;> omega

/-- The cursor invariant maintained in the absence of int64 overflow: both
coordinates are non-negative (and in particular representable). -/
def cursorOK (p : AnsiParser) : Prop :=
  0 ≤ p.cursorX ∧ p.cursorX < 2 ^ 63 ∧ 0 ≤ p.cursorY ∧ p.cursorY < 2 ^ 63

instance (p : AnsiParser) : Decidable (cursorOK p) := by
  unfold cursorOK
  infer_instance

/-- The unconditional residue of the invariant: the coordinates always
remain representable int64 values. -/
def cursorInRange (p : AnsiParser) : Prop :=
  -(2 ^ 63) ≤ p.cursorX ∧ p.cursorX < 2 ^ 63 ∧
  -(2 ^ 63) ≤ p.cursorY ∧ p.cursorY < 2 ^ 63

theorem cursorOK_inRange (p : AnsiParser) (h : cursorOK p) : cursorInRange p := by
  unfold cursorOK at h
  unfold cursorInRange
  omega

theorem zero_lt_two_pow_63 : (0 : Int) < 2 ^ 63 := by decide

theorem neg_two_pow_63_le_zero : -(2 ^ 63) ≤ (0 : Int) := by decide

/-- Absolute positioning always re-establishes the invariant: both wrapped
1-based coordinates are clamped at 0. -/
theorem handleCursorPosition_ok (p : AnsiParser) (params : List Char) :
    cursorOK (p.handleCursorPosition params) := by
  unfold cursorOK AnsiParser.handleCursorPosition
  cases parseSGRParams params with
  | nil => exact ⟨le_refl 0, zero_lt_two_pow_63, le_refl 0, zero_lt_two_pow_63⟩
  | cons c0 restCoords =>
    refine ⟨?_, ?_, ?_, ?_⟩
    · show (0 : Int) ≤ max (match restCoords with | [] => 0 | c1 :: _ => wrap64 (c1 - 1)) 0
      exact le_max_right _ 0
    · show max (match restCoords with | [] => 0 | c1 :: _ => wrap64 (c1 - 1)) (0 : Int) < 2 ^ 63
      cases restCoords with
      | nil => decide
      | cons c1 t => exact max_lt (wrap64_ub _) zero_lt_two_pow_63
    · show 0 ≤ max (wrap64 (c0 - 1)) 0
      exact le_max_right _ 0
    · show max (wrap64 (c0 - 1)) 0 < 2 ^ 63
      exact max_lt (wrap64_ub _) zero_lt_two_pow_63

/-- Every escape handler preserves the invariant when its (possible)
unclamped addition does not overflow. -/
theorem handleEscapeSequence_ok (p : AnsiParser) (seq : List Char)
    (h : cursorOK p) (hno : seqNoOverflow p seq = true) :
    cursorOK (p.handleEscapeSequence seq) := by
  unfold cursorOK at h
  obtain ⟨hx, hxr, hy, hyr⟩ := h
  unfold seqNoOverflow at hno
  unfold AnsiParser.handleEscapeSequence cursorOK
  cases hlast : seq.getLast? with
  | none => exact ⟨hx, hxr, hy, hyr⟩
  | some command =>
    simp only [hlast] at hno
    simp only []
    split_ifs with h1 h2 h3 h4 h5 h6 h7 h8
    · obtain ⟨e1, e2⟩ := handleSGR_cursor p seq.dropLast
      rw [e1, e2]
      exact ⟨hx, hxr, hy, hyr⟩
    · exact handleCursorPosition_ok p seq.dropLast
    · unfold AnsiParser.handleCursorUp
      refine ⟨hx, hxr, ?_, ?_⟩
      · show 0 ≤ (if wrap64 (p.cursorY - cursorParam seq.dropLast) < 0 then 0
          else wrap64 (p.cursorY - cursorParam seq.dropLast))
        split_ifs with hcl
        · exact le_refl 0
        · omega
      · show (if wrap64 (p.cursorY - cursorParam seq.dropLast) < 0 then 0
          else wrap64 (p.cursorY - cursorParam seq.dropLast)) < 2 ^ 63
        split_ifs with hcl
        · decide
        · exact wrap64_ub _
    · rw [if_pos h4] at hno
      have hb : p.cursorY + cursorParam seq.dropLast < 2 ^ 63 := of_decide_eq_true hno
      have hp := cursorParam_pos seq.dropLast
      have hw : wrap64 (p.cursorY + cursorParam seq.dropLast)
          = p.cursorY + cursorParam seq.dropLast := wrap64_eq_self _ (by omega) hb
      unfold AnsiParser.handleCursorDown
      refine ⟨hx, hxr, ?_, ?_⟩
      · show 0 ≤ wrap64 (p.cursorY + cursorParam seq.dropLast)
        rw [hw]; omega
      · show wrap64 (p.cursorY + cursorParam seq.dropLast) < 2 ^ 63
        exact wrap64_ub _
    · rw [if_neg h4, if_pos h5] at hno
      have hb : p.cursorX + cursorParam seq.dropLast < 2 ^ 63 := of_decide_eq_true hno
      have hp := cursorParam_pos seq.dropLast
      have hw : wrap64 (p.cursorX + cursorParam seq.dropLast)
          = p.cursorX + cursorParam seq.dropLast := wrap64_eq_self _ (by omega) hb
      unfold AnsiParser.handleCursorForward
      refine ⟨?_, ?_, hy, hyr⟩
      · show 0 ≤ wrap64 (p.cursorX + cursorParam seq.dropLast)
        rw [hw]; omega
      · show wrap64 (p.cursorX + cursorParam seq.dropLast) < 2 ^ 63
        exact wrap64_ub _
    · unfold AnsiParser.handleCursorBack
      refine ⟨?_, ?_, hy, hyr⟩
      · show 0 ≤ (if wrap64 (p.cursorX - cursorParam seq.dropLast) < 0 then 0
          else wrap64 (p.cursorX - cursorParam seq.dropLast))
        split_ifs with hcl
        · exact le_refl 0
        · omega
      · show (if wrap64 (p.cursorX - cursorParam seq.dropLast) < 0 then 0
          else wrap64 (p.cursorX - cursorParam seq.dropLast)) < 2 ^ 63
        split_ifs with hcl
        · decide
        · exact wrap64_ub _
    · obtain ⟨e1, e2⟩ := handleEraseDisplay_cursor p seq.dropLast
      rw [e1, e2]
      exact ⟨hx, hxr, hy, hyr⟩
    · obtain ⟨e1, e2⟩ := handleEraseLine_cursor p seq.dropLast
      rw [e1, e2]
      exact ⟨hx, hxr, hy, hyr⟩
    · exact ⟨hx, hxr, hy, hyr⟩

/-- The regular-character arm preserves the invariant when none of its
cursor computations overflows. -/
theorem handleChar_ok (p : AnsiParser) (c : Char)
    (h : cursorOK p) (hno : charNoOverflow p c = true) :
    cursorOK (p.handleChar c) := by
  unfold charNoOverflow at hno
  rw [Bool.and_eq_true] at hno
  obtain ⟨hno1, hno2⟩ := hno
  unfold cursorOK at h
  obtain ⟨hx, hxr, hy, hyr⟩ := h
  have haux : cursorOK (p.handleCharAux c) := by
    unfold cursorOK AnsiParser.handleCharAux
    split_ifs with h1 h2 h3 h4
    · rw [if_pos h1] at hno1
      have hb := of_decide_eq_true hno1
      have hw : wrap64 (p.cursorY + 1) = p.cursorY + 1 := wrap64_eq_self _ (by omega) hb
      refine ⟨le_refl 0, zero_lt_two_pow_63, ?_, ?_⟩
      · show 0 ≤ wrap64 (p.cursorY + 1)
        rw [hw]; omega
      · show wrap64 (p.cursorY + 1) < 2 ^ 63
        exact wrap64_ub _
    · exact ⟨le_refl 0, zero_lt_two_pow_63, hy, hyr⟩
    · rw [if_neg h1, if_neg h2, if_pos h3] at hno1
      have hb := of_decide_eq_true hno1
      obtain ⟨n, hn⟩ : ∃ n : Nat, p.cursorX = (n : Int) := ⟨p.cursorX.toNat, by omega⟩
      have htd : (p.cursorX).tdiv 8 = ((n / 8 : Nat) : Int) := by rw [hn]; rfl
      have hpos : 0 ≤ (p.cursorX.tdiv 8 + 1) * 8 := by
        rw [htd]; positivity
      have hw : wrap64 ((p.cursorX.tdiv 8 + 1) * 8) = (p.cursorX.tdiv 8 + 1) * 8 :=
        wrap64_eq_self _ (by omega) hb
      refine ⟨?_, ?_, hy, hyr⟩
      · show 0 ≤ wrap64 ((p.cursorX.tdiv 8 + 1) * 8)
        rw [hw]; exact hpos
      · show wrap64 ((p.cursorX.tdiv 8 + 1) * 8) < 2 ^ 63
        exact wrap64_ub _
    · rw [if_neg h1, if_neg h2, if_neg h3] at hno1
      have hb := of_decide_eq_true hno1
      have hw : wrap64 (p.cursorX + 1) = p.cursorX + 1 := wrap64_eq_self _ (by omega) hb
      refine ⟨?_, ?_, hy, hyr⟩
      · show 0 ≤ wrap64 (p.cursorX + 1)
        rw [hw]; omega
      · show wrap64 (p.cursorX + 1) < 2 ^ 63
        exact wrap64_ub _
    · rw [if_neg h1, if_neg h2, if_neg h3] at hno1
      have hb := of_decide_eq_true hno1
      have hw : wrap64 (p.cursorX + 1) = p.cursorX + 1 := wrap64_eq_self _ (by omega) hb
      refine ⟨?_, ?_, hy, hyr⟩
      · show 0 ≤ wrap64 (p.cursorX + 1)
        rw [hw]; omega
      · show wrap64 (p.cursorX + 1) < 2 ^ 63
        exact wrap64_ub _
  unfold cursorOK at haux
  obtain ⟨ax, axr, ay, ayr⟩ := haux
  unfold AnsiParser.handleChar cursorOK AnsiParser.wrapCursor
  split_ifs with hwc
  · rw [if_pos hwc] at hno2
    have hb := of_decide_eq_true hno2
    have hw : wrap64 ((p.handleCharAux c).cursorY + 1)
        = (p.handleCharAux c).cursorY + 1 := wrap64_eq_self _ (by omega) hb
    refine ⟨le_refl 0, zero_lt_two_pow_63, ?_, ?_⟩
    · show 0 ≤ wrap64 ((p.handleCharAux c).cursorY + 1)
      rw [hw]; omega
    · show wrap64 ((p.handleCharAux c).cursorY + 1) < 2 ^ 63
      exact wrap64_ub _
  · exact ⟨ax, axr, ay, ayr⟩

/-- Every escape handler unconditionally keeps both coordinates in the
int64 range (wrapped arithmetic cannot leave it). -/
theorem handleEscapeSequence_range (p : AnsiParser) (seq : List Char)
    (h : cursorInRange p) : cursorInRange (p.handleEscapeSequence seq) := by
  unfold cursorInRange at h
  obtain ⟨hx, hxr, hy, hyr⟩ := h
  unfold AnsiParser.handleEscapeSequence cursorInRange
  cases seq.getLast? with
  | none => exact ⟨hx, hxr, hy, hyr⟩
  | some command =>
    simp only []
    split_ifs with h1 h2 h3 h4 h5 h6 h7 h8
    · obtain ⟨e1, e2⟩ := handleSGR_cursor p seq.dropLast
      rw [e1, e2]
      exact ⟨hx, hxr, hy, hyr⟩
    · exact cursorOK_inRange _ (handleCursorPosition_ok p seq.dropLast)
    · unfold AnsiParser.handleCursorUp
      refine ⟨hx, hxr, ?_, ?_⟩
      · show -(2 ^ 63) ≤ (if wrap64 (p.cursorY - cursorParam seq.dropLast) < 0 then 0
          else wrap64 (p.cursorY - cursorParam seq.dropLast))
        split_ifs with hcl
        · decide
        · exact wrap64_lb _
      · show (if wrap64 (p.cursorY - cursorParam seq.dropLast) < 0 then 0
          else wrap64 (p.cursorY - cursorParam seq.dropLast)) < 2 ^ 63
        split_ifs with hcl
        · decide
        · exact wrap64_ub _
    · unfold AnsiParser.handleCursorDown
      exact ⟨hx, hxr, wrap64_lb _, wrap64_ub _⟩
    · unfold AnsiParser.handleCursorForward
      exact ⟨wrap64_lb _, wrap64_ub _, hy, hyr⟩
    · unfold AnsiParser.handleCursorBack
      refine ⟨?_, ?_, hy, hyr⟩
      · show -(2 ^ 63) ≤ (if wrap64 (p.cursorX - cursorParam seq.dropLast) < 0 then 0
          else wrap64 (p.cursorX - cursorParam seq.dropLast))
        split_ifs with hcl
        · decide
        · exact wrap64_lb _
      · show (if wrap64 (p.cursorX - cursorParam seq.dropLast) < 0 then 0
          else wrap64 (p.cursorX - cursorParam seq.dropLast)) < 2 ^ 63
        split_ifs with hcl
        · decide
        · exact wrap64_ub _
    · obtain ⟨e1, e2⟩ := handleEraseDisplay_cursor p seq.dropLast
      rw [e1, e2]
      exact ⟨hx, hxr, hy, hyr⟩
    · obtain ⟨e1, e2⟩ := handleEraseLine_cursor p seq.dropLast
      rw [e1, e2]
      exact ⟨hx, hxr, hy, hyr⟩
    · exact ⟨hx, hxr, hy, hyr⟩

/-- The regular-character arm unconditionally keeps both coordinates in
the int64 range. -/
theorem handleChar_range (p : AnsiParser) (c : Char)
    (h : cursorInRange p) : cursorInRange (p.handleChar c) := by
  unfold cursorInRange at h
  obtain ⟨hx, hxr, hy, hyr⟩ := h
  have haux : cursorInRange (p.handleCharAux c) := by
    unfold cursorInRange AnsiParser.handleCharAux
    split_ifs with h1 h2 h3 h4
    · exact ⟨neg_two_pow_63_le_zero, zero_lt_two_pow_63, wrap64_lb _, wrap64_ub _⟩
    · exact ⟨neg_two_pow_63_le_zero, zero_lt_two_pow_63, hy, hyr⟩
    · exact ⟨wrap64_lb _, wrap64_ub _, hy, hyr⟩
    · exact ⟨wrap64_lb _, wrap64_ub _, hy, hyr⟩
    · exact ⟨wrap64_lb _, wrap64_ub _, hy, hyr⟩
  unfold cursorInRange at haux
  obtain ⟨ax, axr, ay, ayr⟩ := haux
  unfold AnsiParser.handleChar cursorInRange AnsiParser.wrapCursor
  split_ifs with hwc
  · exact ⟨neg_two_pow_63_le_zero, zero_lt_two_pow_63, wrap64_lb _, wrap64_ub _⟩
  · exact ⟨ax, axr, ay, ayr⟩

/-- The parse loop unconditionally keeps both cursor coordinates in the
int64 range. -/
theorem parseLoop_range : ∀ (p : AnsiParser) (input : List Char),
    cursorInRange p → cursorInRange (parseLoop p input) := by
  intro p input
  induction p, input using parseLoop.induct with
  | case1 p =>
    intro h
    rw [parseLoop]
    exact h
  | case2 p rest j ih =>
    intro h
    rw [parseLoop]
    exact ih (handleEscapeSequence_range p _ h)
  | case3 p c rest hne ih =>
    intro h
    rw [parseLoop]
    · exact ih (handleChar_range p c h)
    · intro rest1 hc hrest
      exact hne rest1 hc hrest

/-- The parse loop preserves non-negativity when no cursor computation
along the parse overflows int64. -/
theorem parseLoop_ok : ∀ (p : AnsiParser) (input : List Char),
    cursorOK p → parseNoOverflow p input = true → cursorOK (parseLoop p input) := by
  intro p input
  induction p, input using parseLoop.induct with
  | case1 p =>
    intro h _
    rw [parseLoop]
    exact h
  | case2 p rest j ih =>
    intro h hno
    simp only [parseNoOverflow, Bool.and_eq_true] at hno
    rw [parseLoop]
    exact ih (handleEscapeSequence_ok p _ h hno.1) hno.2
  | case3 p c rest hne ih =>
    intro h hno
    rw [parseNoOverflow] at hno
    · rw [Bool.and_eq_true] at hno
      rw [parseLoop]
      · exact ih (handleChar_ok p c h hno.1) hno.2
      · intro rest1 hc hrest
        exact hne rest1 hc hrest
    · intro rest1 hc hrest
      exact hne rest1 hc hrest

/-- C9 (amended): the parser's cursor coordinates always remain
representable int64 values, and they never become negative provided no
cursor computation along the parse overflows int64: plain-character
handling, every escape-sequence handler (absolute positioning, relative
moves, erasing, SGR), and the whole parse loop preserve non-negativity as
long as the unclamped additions (CSI B and C, the column and row
increments, the tab target) stay below `2^63`.  Without that proviso the
claim is false of the program: the int64 arithmetic wraps, which makes a
negative cursor coordinate reachable from ANSI input (see the
counterexample). -/
theorem cursor_int64_invariant (p : AnsiParser) (input : List Char)
    (h : cursorOK p) :
    cursorInRange (parseLoop p input) ∧
    (parseNoOverflow p input = true →
      0 ≤ (parseLoop p input).cursorX ∧ 0 ≤ (parseLoop p input).cursorY) := by
  constructor
  · exact parseLoop_range p input (cursorOK_inRange p h)
  · intro hno
    have hk := parseLoop_ok p input h hno
    unfold cursorOK at hk
    exact ⟨hk.1, hk.2.2.1⟩

/-- A concrete parser state over a fresh 2-by-2 grid, used to instantiate
theorems with hypotheses. -/
def sampleParser : AnsiParser :=
  { grid := { Width := 2, Height := 2, Cells := [[NewCell, NewCell], [NewCell, NewCell]] },
    cursorX := 0, cursorY := 0, fgColor := DefaultColor, bgColor := DefaultColor,
    bold := false, italic := false, underline := false, strikethrough := false }

/-- The decimal digits of the largest int64 value, `2^63 - 1`. -/
def maxInt64Digits : List Char :=
  ['9', '2', '2', '3', '3', '7', '2', '0', '3', '6', '8', '5', '4', '7', '7', '5', '8', '0', '7']

/-- Two CSI 9223372036854775807 B sequences: the second down-move
overflows the int64 row coordinate. -/
def overflowInput : List Char :=
  ('\x1b' :: '[' :: maxInt64Digits ++ ['B']) ++ ('\x1b' :: '[' :: maxInt64Digits ++ ['B'])

/-- C9 counterexample: parsing two CSI 9223372036854775807 B sequences
from a fresh parser leaves the row coordinate at -2, so the original
unconditional non-negativity claim is false of the wrapping int64
arithmetic the source performs. -/
theorem cursor_overflow_counterexample :
    (parseLoop sampleParser overflowInput).cursorY = -2 ∧
    (parseLoop sampleParser overflowInput).cursorY < 0 := by
  have h : (parseLoop sampleParser overflowInput).cursorY = -2 := by
    show (parseLoop sampleParser ('\x1b' :: '[' ::
      ((maxInt64Digits ++ ['B']) ++ ('\x1b' :: '[' :: maxInt64Digits ++ ['B'])))).cursorY = -2
    rw [parseLoop]
    show (parseLoop { sampleParser with cursorY := 9223372036854775807 }
      ('\x1b' :: '[' :: (maxInt64Digits ++ ['B']))).cursorY = -2
    rw [parseLoop]
    show (parseLoop { sampleParser with cursorY := -2 } ([] : List Char)).cursorY = -2
    rw [parseLoop]
  exact ⟨h, by rw [h]; decide⟩

/-- Witness for C9 at a concrete input containing an upward move (no
computation overflows): the final cursor is in range and non-negative. -/
theorem cursor_int64_invariant_witness :
    cursorInRange (parseLoop sampleParser ['\x1b', '[', '9', 'A']) ∧
    0 ≤ (parseLoop sampleParser ['\x1b', '[', '9', 'A']).cursorX ∧
    0 ≤ (parseLoop sampleParser ['\x1b', '[', '9', 'A']).cursorY :=
  ⟨(cursor_int64_invariant sampleParser ['\x1b', '[', '9', 'A'] (by decide)).1,
   (cursor_int64_invariant sampleParser ['\x1b', '[', '9', 'A'] (by decide)).2
     (by rw [parseNoOverflow]
         show (seqNoOverflow sampleParser ['9', 'A']
           && parseNoOverflow sampleParser ([] : List Char)) = true
         rw [parseNoOverflow]
         decide)⟩

/-- A parser state over a fresh 2-by-2 grid whose cursor column is the
largest int64 value; reachable from the fresh state by CSI
9223372036854775807 C. -/
def overflowParser : AnsiParser :=
  { grid := { Width := 2, Height := 2, Cells := [[NewCell, NewCell], [NewCell, NewCell]] },
    cursorX := 9223372036854775807, cursorY := 0, fgColor := DefaultColor,
    bgColor := DefaultColor, bold := false, italic := false, underline := false,
    strikethrough := false }

/-- C6 counterexample: the state with cursorX = 2^63-1 — reachable by CSI
9223372036854775807 C from the fresh parser — satisfies every hypothesis
of the original claim (well-formed positive-width grid, non-negative
cursor) and its column has reached the width, yet a plain character does
not wrap the cursor to column 0 of the next row: the column increment
overflows int64 to -2^63 and the soft-wrap check fails. -/
theorem handleChar_overflow_counterexample :
    parseLoop sampleParser ('\x1b' :: '[' :: maxInt64Digits ++ ['C']) = overflowParser ∧
    overflowParser.grid.WF ∧ 0 ≤ overflowParser.cursorX ∧ 0 ≤ overflowParser.cursorY ∧
    0 < overflowParser.grid.Width ∧
    overflowParser.grid.Width ≤ overflowParser.cursorX + 1 ∧
    ¬((overflowParser.handleChar 'a').cursorX = 0 ∧
      (overflowParser.handleChar 'a').cursorY = overflowParser.cursorY + 1) ∧
    (overflowParser.handleChar 'a').cursorX = -(2 ^ 63) := by
  refine ⟨?_, by decide, by decide, by decide, by decide, by decide, by decide, by decide⟩
  show parseLoop sampleParser ('\x1b' :: '[' :: (maxInt64Digits ++ ['C'])) = overflowParser
  rw [parseLoop]
  show parseLoop overflowParser ([] : List Char) = overflowParser
  rw [parseLoop]

/-- Witness for C6 at a concrete state: a newline moves the cursor to the
start of the next row. -/
theorem handleChar_spec_witness :
    sampleParser.handleChar '\n' =
      { sampleParser with cursorX := 0, cursorY := sampleParser.cursorY + 1 } :=
  (handleChar_spec sampleParser '\n' (by decide) (by decide) (by decide) (by decide)
    (by decide) (by decide)).1 rfl

/-! ## C3: unterminated escape sequences

When no terminating letter follows the ESC-left-bracket prefix,
`findSequenceEnd` returns its start position, which passes the caller's
`seqEnd >= i+2` check: the first codepoint after the prefix is consumed as a
one-codepoint "sequence" (its command is a non-letter, so no handler fires)
and the scan resumes right after it, replaying the remaining codepoints of
the unterminated sequence as ordinary input. -/

/-- A one-codepoint escape sequence whose command is not an ASCII letter
matches no handler and leaves the state unchanged. -/
theorem handleEscapeSequence_nonletter (p : AnsiParser) (c : Char)
    (h : isSeqLetter c = false) : p.handleEscapeSequence [c] = p := by
  unfold AnsiParser.handleEscapeSequence
  have hl : ([c] : List Char).getLast? = some c := rfl
  rw [hl]
  dsimp only []
  split_ifs with h1 h2 h3 h4 h5 h6 h7 h8
  · subst h1; exact absurd h (by decide)
  · rcases h2 with h2 | h2 <;> (subst h2; exact absurd h (by decide))
  · subst h3; exact absurd h (by decide)
  · subst h4; exact absurd h (by decide)
  · subst h5; exact absurd h (by decide)
  · subst h6; exact absurd h (by decide)
  · subst h7; exact absurd h (by decide)
  · subst h8; exact absurd h (by decide)
  · rfl

/-- A concrete parser state over a fresh 4-by-2 grid. -/
def sampleParser4 : AnsiParser :=
  { grid := { Width := 4, Height := 2,
              Cells := [[NewCell, NewCell, NewCell, NewCell],
                        [NewCell, NewCell, NewCell, NewCell]] },
    cursorX := 0, cursorY := 0, fgColor := DefaultColor, bgColor := DefaultColor,
    bold := false, italic := false, underline := false, strikethrough := false }

/-- C3 counterexample: the input ESC `[` `3` `1` ends inside an escape
sequence (no terminating letter before end of input), yet parsing it into a
fresh 4-by-2 grid writes the rune `1` into cell (0,0) and leaves the cursor
at column 1 — the unterminated sequence is not discarded with no state
change. -/
theorem unterminated_escape_counterexample :
    (ParseANSI ['\x1b', '[', '3', '1'] 4 2).map (fun g => (g.cellAt 0 0).Rune) =
      some '1' ∧
    (parseLoop sampleParser4 ['\x1b', '[', '3', '1']).cursorX = 1 ∧
    ParseANSI ['\x1b', '[', '3', '1'] 4 2 ≠ NewTerminalGrid 4 2 := by
  refine ⟨?_, ?_, ?_⟩ <;>
    simp +decide [ParseANSI, NewTerminalGrid, parseLoop, sampleParser4,
      AnsiParser.handleEscapeSequence, AnsiParser.handleChar, AnsiParser.handleCharAux,
      AnsiParser.wrapCursor, isSeqLetter, TerminalGrid.setAt, TerminalGrid.cellAt]

/-- C3 (amended): for every input that ends inside an escape sequence with
at least one codepoint after the ESC-left-bracket prefix (no terminating
letter anywhere after it), the parser consumes the first codepoint after the
prefix as a one-codepoint sequence — a non-letter, so it changes nothing —
and then processes the remaining codepoints of the unterminated sequence as
ordinary input (which can write cells and move the cursor), rather than
discarding them. -/
theorem unterminated_escape_replays_tail (p : AnsiParser) (c : Char) (rest : List Char)
    (hc : isSeqLetter c = false) (hrest : ∀ d ∈ rest, isSeqLetter d = false) :
    parseLoop p ('\x1b' :: '[' :: c :: rest) = parseLoop p rest := by
  rw [parseLoop]
  have hany : (c :: rest).any isSeqLetter = false := by
    rw [List.any_eq_false]
    intro x hx
    rcases List.mem_cons.mp hx with rfl | hx'
    · simp [hc]
    · simp [hrest x hx']
  simp only [hany, Bool.false_eq_true, if_false, List.take_succ_cons, List.take_zero,
    List.drop_succ_cons, List.drop_zero]
  rw [handleEscapeSequence_nonletter p c hc]

/-- Witness for the amended C3 statement at a concrete input: parsing
ESC `[` `3` `1` equals parsing the replayed tail `1`. -/
theorem unterminated_escape_replays_tail_witness :
    parseLoop sampleParser4 ['\x1b', '[', '3', '1'] = parseLoop sampleParser4 ['1'] :=
  unterminated_escape_replays_tail sampleParser4 '3' ['1'] (by decide) (by decide)

/-! ## C1: correctness of the diff engine

The inner loop of `Diff` is characterized as producing exactly the maximal
contiguous runs of differing columns of each row. -/

/-- cellsEqual decides structural equality of cells. -/
theorem cellsEqual_iff (a b : Cell) : cellsEqual a b = true ↔ a = b := by
  unfold cellsEqual
  cases a; cases b
  simp [Cell.mk.injEq, and_assoc]

/-- A maximal contiguous run of differing columns: non-empty, within the
row, all columns differ, and it can be extended in neither direction. -/
def IsMaxRun (differs : Nat → Bool) (w s len : Nat) : Prop :=
  0 < len ∧ s + len ≤ w ∧ (∀ i, s ≤ i → i < s + len → differs i = true) ∧
  (s = 0 ∨ differs (s - 1) = false) ∧ (s + len = w ∨ differs (s + len) = false)

instance (differs : Nat → Bool) (w s len : Nat) : Decidable (IsMaxRun differs w s len) := by
  unfold IsMaxRun
  infer_instance

/-- The loop invariant on Go's `startX` state. -/
def StInv (differs : Nat → Bool) (x : Nat) : Option Nat → Prop
  | none => x = 0 ∨ differs (x - 1) = false
  | some s0 => s0 < x ∧ (∀ i, s0 ≤ i → i < x → differs i = true) ∧
      (s0 = 0 ∨ differs (s0 - 1) = false)

/-- What the rest of the scan emits, given the state at column `x` of a row
of width `w`. -/
def SpecOut (differs : Nat → Bool) (w x : Nat) : Option Nat → Nat × Nat → Prop
  | none, (s, len) => IsMaxRun differs w s len ∧ x ≤ s
  | some s0, (s, len) =>
      (s = s0 ∧ IsMaxRun differs w s0 len ∧ x ≤ s0 + len) ∨
      (IsMaxRun differs w s len ∧ x ≤ s)

/-- Main characterization of the inner diff loop: under the state invariant,
the emitted pairs are exactly those demanded by `SpecOut`. -/
theorem diffRowAux_mem (differs : Nat → Bool) :
    ∀ (fuel x : Nat) (st : Option Nat), StInv differs x st →
      ∀ s len, ((s, len) ∈ diffRowAux differs x st fuel ↔
        SpecOut differs (x + fuel) x st (s, len)) := by
  intro fuel
  induction fuel with
  | zero =>
    intro x st hinv s len
    cases st with
    | none =>
      simp only [diffRowAux, List.not_mem_nil, false_iff, SpecOut, IsMaxRun]
      rintro ⟨⟨h1, h2, -, -, -⟩, h3⟩
      omega
    | some s0 =>
      obtain ⟨hlt, hall, hleft⟩ := hinv
      simp only [diffRowAux, List.mem_singleton, Prod.mk.injEq, SpecOut]
      constructor
      · rintro ⟨rfl, rfl⟩
        left
        refine ⟨rfl, ⟨by omega, by omega, ?_, hleft, by omega⟩, by omega⟩
        intro i hi1 hi2
        exact hall i hi1 (by omega)
      · rintro (⟨rfl, ⟨h1, h2, -, -, -⟩, h3⟩ | ⟨⟨h1, h2, -, -, -⟩, h3⟩) <;> omega
  | succ fuel ih =>
    intro x st hinv s len
    cases st with
    | none =>
      cases hd : differs x with
      | true =>
        have step : diffRowAux differs x none (fuel + 1) =
            diffRowAux differs (x + 1) (some x) fuel := by
          simp only [diffRowAux, hd]
        rw [step, ih (x + 1) (some x)
          ⟨by omega, fun i h1 h2 => by
            have hix : i = x := by omega
            rw [hix]; exact hd, hinv⟩]
        simp only [SpecOut]
        have hw : x + 1 + fuel = x + (fuel + 1) := by omega
        rw [hw]
        constructor
        · rintro (⟨rfl, hm, hle⟩ | ⟨hm, hle⟩)
          · exact ⟨hm, by omega⟩
          · exact ⟨hm, by omega⟩
        · rintro ⟨hm, hle⟩
          by_cases hsx : s = x
          · subst hsx
            exact Or.inl ⟨rfl, hm, by have := hm.1; omega⟩
          · exact Or.inr ⟨hm, by omega⟩
      | false =>
        have step : diffRowAux differs x none (fuel + 1) =
            diffRowAux differs (x + 1) none fuel := by
          simp only [diffRowAux, hd]
        rw [step, ih (x + 1) none (Or.inr (by simpa using hd))]
        simp only [SpecOut]
        have hw : x + 1 + fuel = x + (fuel + 1) := by omega
        rw [hw]
        constructor
        · rintro ⟨hm, hle⟩
          exact ⟨hm, by omega⟩
        · rintro ⟨hm, hle⟩
          refine ⟨hm, ?_⟩
          rcases Nat.eq_or_lt_of_le hle with hsx | hlt
          · exfalso
            obtain ⟨h1, -, hallm, -, -⟩ := hm
            have hds := hallm s (le_refl s) (by omega)
            rw [← hsx] at hds
            rw [hds] at hd
            simp at hd
          · omega
    | some s0 =>
      obtain ⟨hs0, hall0, hleft0⟩ := hinv
      cases hd : differs x with
      | true =>
        have step : diffRowAux differs x (some s0) (fuel + 1) =
            diffRowAux differs (x + 1) (some s0) fuel := by
          simp only [diffRowAux, hd]
        rw [step, ih (x + 1) (some s0)
          ⟨by omega, fun i h1 h2 => by
            rcases Nat.lt_or_ge i x with hix | hix
            · exact hall0 i h1 hix
            · have hix2 : i = x := by omega
              rw [hix2]; exact hd, hleft0⟩]
        simp only [SpecOut]
        have hw : x + 1 + fuel = x + (fuel + 1) := by omega
        rw [hw]
        constructor
        · rintro (⟨rfl, hm, hle⟩ | ⟨hm, hle⟩)
          · exact Or.inl ⟨rfl, hm, by omega⟩
          · exact Or.inr ⟨hm, by omega⟩
        · rintro (⟨rfl, hm, hle⟩ | ⟨hm, hle⟩)
          · left
            refine ⟨rfl, hm, ?_⟩
            rcases Nat.eq_or_lt_of_le hle with hex | hlt
            · exfalso
              obtain ⟨-, hwle, -, -, hright⟩ := hm
              rcases hright with hw2 | hnd
              · omega
              · rw [← hex] at hnd
                rw [hnd] at hd
                exact Bool.false_ne_true hd
            · omega
          · right
            refine ⟨hm, ?_⟩
            rcases Nat.eq_or_lt_of_le hle with hsx | hlt
            · exfalso
              obtain ⟨-, -, -, hleftm, -⟩ := hm
              rcases hleftm with h0 | hnd
              · omega
              · have hds := hall0 (s - 1) (by omega) (by omega)
                rw [hnd] at hds
                exact Bool.false_ne_true hds
            · omega
      | false =>
        have step : diffRowAux differs x (some s0) (fuel + 1) =
            (s0, x - s0) :: diffRowAux differs (x + 1) none fuel := by
          simp only [diffRowAux, hd]
        rw [step]
        simp only [List.mem_cons, Prod.mk.injEq]
        rw [ih (x + 1) none (Or.inr (by simpa using hd))]
        simp only [SpecOut]
        have hw : x + 1 + fuel = x + (fuel + 1) := by omega
        rw [hw]
        constructor
        · rintro (⟨rfl, rfl⟩ | ⟨hm, hle⟩)
          · left
            refine ⟨rfl, ⟨by omega, by omega, ?_, hleft0, Or.inr ?_⟩, by omega⟩
            · intro i h1 h2
              exact hall0 i h1 (by omega)
            · have hx2 : s + (x - s) = x := by omega
              rw [hx2]
              exact hd
          · exact Or.inr ⟨hm, by omega⟩
        · rintro (⟨rfl, hm, hle⟩ | ⟨hm, hle⟩)
          · left
            obtain ⟨h1, h2, hallm, -, hright⟩ := hm
            refine ⟨rfl, ?_⟩
            have hlenx : s + len ≤ x := by
              by_contra hgt
              have hds := hallm x (by omega) (by omega)
              rw [hds] at hd
              simp at hd
            omega
          · right
            refine ⟨hm, ?_⟩
            rcases Nat.eq_or_lt_of_le hle with hsx | hlt
            · exfalso
              obtain ⟨h1, -, hallm, -, -⟩ := hm
              have hds := hallm s (le_refl s) (by omega)
              rw [← hsx] at hds
              rw [hds] at hd
              simp at hd
            · omega

/-- Membership in the per-row diff output is exactly being a maximal run. -/
theorem diffRow_mem (differs : Nat → Bool) (w s len : Nat) :
    (s, len) ∈ diffRow differs w ↔ IsMaxRun differs w s len := by
  unfold diffRow
  rw [diffRowAux_mem differs w 0 none (Or.inl rfl)]
  simp only [SpecOut, Nat.zero_add]
  exact ⟨fun h => h.1, fun h => ⟨h, Nat.zero_le s⟩⟩

/-- The left end of the run of true columns containing a given column. -/
def runLeft (differs : Nat → Bool) : Nat → Nat
  | 0 => 0
  | x + 1 => if differs x then runLeft differs x else x + 1

theorem runLeft_le (differs : Nat → Bool) : ∀ x, runLeft differs x ≤ x := by
  intro x
  induction x with
  | zero => exact le_refl 0
  | succ x ih =>
    unfold runLeft
    split_ifs
    · omega
    · omega

theorem runLeft_differs (differs : Nat → Bool) :
    ∀ x i, runLeft differs x ≤ i → i < x → differs i = true := by
  intro x
  induction x with
  | zero => intro i h1 h2; omega
  | succ x ih =>
    intro i h1 h2
    unfold runLeft at h1
    split_ifs at h1 with hdx
    · rcases Nat.lt_or_ge i x with hix | hix
      · exact ih i h1 hix
      · have hix2 : i = x := by omega
        rw [hix2]; exact hdx
    · omega

theorem runLeft_boundary (differs : Nat → Bool) :
    ∀ x, runLeft differs x = 0 ∨ differs (runLeft differs x - 1) = false := by
  intro x
  induction x with
  | zero => exact Or.inl rfl
  | succ x ih =>
    unfold runLeft
    split_ifs with hdx
    · exact ih
    · right
      simpa using hdx

/-- The right end of the run of true columns from a given column, scanning
at most `fuel` further columns. -/
def runEndAux (differs : Nat → Bool) : Nat → Nat → Nat
  | x, 0 => x
  | x, fuel + 1 => if differs x then runEndAux differs (x + 1) fuel else x

theorem runEndAux_ge (differs : Nat → Bool) :
    ∀ fuel x, x ≤ runEndAux differs x fuel := by
  intro fuel
  induction fuel with
  | zero => intro x; exact le_refl x
  | succ fuel ih =>
    intro x
    unfold runEndAux
    split_ifs
    · have := ih (x + 1)
      omega
    · exact le_refl x

theorem runEndAux_le (differs : Nat → Bool) :
    ∀ fuel x, runEndAux differs x fuel ≤ x + fuel := by
  intro fuel
  induction fuel with
  | zero =>
    intro x
    simp only [runEndAux]
    omega
  | succ fuel ih =>
    intro x
    unfold runEndAux
    split_ifs
    · have := ih (x + 1)
      omega
    · omega

theorem runEndAux_differs (differs : Nat → Bool) :
    ∀ fuel x i, x ≤ i → i < runEndAux differs x fuel → differs i = true := by
  intro fuel
  induction fuel with
  | zero =>
    intro x i h1 h2
    simp only [runEndAux] at h2
    omega
  | succ fuel ih =>
    intro x i h1 h2
    unfold runEndAux at h2
    split_ifs at h2 with hdx
    · rcases Nat.lt_or_ge x i with hxi | hxi
      · exact ih (x + 1) i (by omega) h2
      · have hix : i = x := by omega
        rw [hix]; exact hdx
    · omega

theorem runEndAux_boundary (differs : Nat → Bool) :
    ∀ fuel x, runEndAux differs x fuel = x + fuel ∨
      differs (runEndAux differs x fuel) = false := by
  intro fuel
  induction fuel with
  | zero => intro x; exact Or.inl rfl
  | succ fuel ih =>
    intro x
    unfold runEndAux
    split_ifs with hdx
    · rcases ih (x + 1) with h | h
      · left; omega
      · right; exact h
    · right
      simpa using hdx

/-- Every differing column lies inside some maximal run. -/
theorem exists_maxRun (differs : Nat → Bool) (w x : Nat) (hx : x < w)
    (hd : differs x = true) :
    ∃ s len, IsMaxRun differs w s len ∧ s ≤ x ∧ x < s + len := by
  refine ⟨runLeft differs x, runEndAux differs x (w - x) - runLeft differs x,
    ⟨?_, ?_, ?_, runLeft_boundary differs x, ?_⟩, runLeft_le differs x, ?_⟩
  · have h1 := runLeft_le differs x
    have h2 := runEndAux_ge differs (w - x) x
    have h3 : x < runEndAux differs x (w - x) := by
      have : runEndAux differs x (w - x) ≠ x → x < runEndAux differs x (w - x) := by omega
      apply this
      intro heq
      match hwx : w - x with
      | 0 => omega
      | fuel + 1 =>
        rw [hwx] at heq
        unfold runEndAux at heq
        rw [hd] at heq
        have := runEndAux_ge differs fuel (x + 1)
        simp at heq
        omega
    omega
  · have h1 := runLeft_le differs x
    have h2 := runEndAux_le differs (w - x) x
    omega
  · intro i h1 h2
    have hrs := runLeft_le differs x
    rcases Nat.lt_or_ge i x with hix | hix
    · exact runLeft_differs differs x i h1 hix
    · rcases Nat.eq_or_lt_of_le hix with hix2 | hix2
      · rw [← hix2]; exact hd
      · refine runEndAux_differs differs (w - x) x i (by omega) ?_
        have := runEndAux_ge differs (w - x) x
        omega
  · have h1 := runLeft_le differs x
    rcases runEndAux_boundary differs (w - x) x with h | h
    · left; omega
    · right
      have h2 := runEndAux_ge differs (w - x) x
      have h3 : runLeft differs x +
          (runEndAux differs x (w - x) - runLeft differs x) =
          runEndAux differs x (w - x) := by omega
      rw [h3]; exact h
  · have h2 := runEndAux_ge differs (w - x) x
    have h3 : x < runEndAux differs x (w - x) := by
      have hne : runEndAux differs x (w - x) ≠ x → x < runEndAux differs x (w - x) := by
        omega
      apply hne
      intro heq
      match hwx : w - x with
      | 0 => omega
      | fuel + 1 =>
        rw [hwx] at heq
        unfold runEndAux at heq
        rw [hd] at heq
        have := runEndAux_ge differs fuel (x + 1)
        simp at heq
        omega
    have h1 := runLeft_le differs x
    omega

/-- Two maximal runs sharing a column coincide. -/
theorem maxRun_unique (differs : Nat → Bool) (w s1 len1 s2 len2 x : Nat)
    (h1 : IsMaxRun differs w s1 len1) (h2 : IsMaxRun differs w s2 len2)
    (c1 : s1 ≤ x ∧ x < s1 + len1) (c2 : s2 ≤ x ∧ x < s2 + len2) :
    s1 = s2 ∧ len1 = len2 := by
  obtain ⟨p1, q1, a1, l1, r1⟩ := h1
  obtain ⟨p2, q2, a2, l2, r2⟩ := h2
  have hs : s1 = s2 := by
    by_contra hne
    rcases Nat.lt_or_ge s1 s2 with hlt | hge
    · rcases l2 with h0 | hnd
      · omega
      · have := a1 (s2 - 1) (by omega) (by omega)
        rw [this] at hnd
        simp at hnd
    · have hlt2 : s2 < s1 := by omega
      rcases l1 with h0 | hnd
      · omega
      · have := a2 (s1 - 1) (by omega) (by omega)
        rw [this] at hnd
        simp at hnd
  subst hs
  refine ⟨rfl, ?_⟩
  by_contra hne
  rcases Nat.lt_or_ge len1 len2 with hlt | hge
  · rcases r1 with hw1 | hnd
    · omega
    · have := a2 (s1 + len1) (by omega) (by omega)
      rw [this] at hnd
      simp at hnd
  · have hlt2 : len2 < len1 := by omega
    rcases r2 with hw2 | hnd
    · omega
    · have := a1 (s1 + len2) (by omega) (by omega)
      rw [this] at hnd
      simp at hnd

/-- Two distinct maximal runs are separated by at least one non-differing
column (neither overlapping nor adjacent). -/
theorem maxRun_separated (differs : Nat → Bool) (w s1 len1 s2 len2 : Nat)
    (h1 : IsMaxRun differs w s1 len1) (h2 : IsMaxRun differs w s2 len2)
    (hne : ¬(s1 = s2 ∧ len1 = len2)) :
    s1 + len1 < s2 ∨ s2 + len2 < s1 := by
  have hdisj : s1 + len1 ≤ s2 ∨ s2 + len2 ≤ s1 := by
    by_contra hno
    push_neg at hno
    have hx : ∃ x, (s1 ≤ x ∧ x < s1 + len1) ∧ (s2 ≤ x ∧ x < s2 + len2) := by
      refine ⟨max s1 s2, ?_⟩
      have := h1.1
      have := h2.1
      omega
    obtain ⟨x, c1, c2⟩ := hx
    exact hne (maxRun_unique differs w s1 len1 s2 len2 x h1 h2 c1 c2)
  rcases hdisj with hle | hle
  · left
    rcases Nat.eq_or_lt_of_le hle with hadj | hlt
    · exfalso
      obtain ⟨-, -, -, -, r1⟩ := h1
      obtain ⟨p2, q2, a2, -, -⟩ := h2
      rcases r1 with hw1 | hnd
      · omega
      · have := a2 s2 (le_refl s2) (by omega)
        rw [hadj] at hnd
        rw [this] at hnd
        simp at hnd
    · exact hlt
  · right
    rcases Nat.eq_or_lt_of_le hle with hadj | hlt
    · exfalso
      obtain ⟨p1, q1, a1, -, -⟩ := h1
      obtain ⟨-, -, -, -, r2⟩ := h2
      rcases r2 with hw2 | hnd
      · omega
      · have := a1 s1 (le_refl s1) (by omega)
        rw [hadj] at hnd
        rw [this] at hnd
        simp at hnd
    · exact hlt

/-- Emitted runs start no earlier than the scan position (resp. the open
run's start). -/
theorem diffRowAux_lb (differs : Nat → Bool) :
    ∀ (fuel x : Nat) (st : Option Nat) (s len : Nat),
      (∀ t, st = some t → t ≤ x) → (s, len) ∈ diffRowAux differs x st fuel →
      (st = none → x ≤ s) ∧ (∀ t, st = some t → t ≤ s) := by
  intro fuel
  induction fuel with
  | zero =>
    intro x st s len hst hmem
    cases st with
    | none => simp [diffRowAux] at hmem
    | some s0 =>
      simp [diffRowAux] at hmem
      obtain ⟨rfl, -⟩ := hmem
      exact ⟨(by intro h; cases h), (by rintro t ht; cases ht; exact le_refl s)⟩
  | succ fuel ih =>
    intro x st s len hst hmem
    cases st with
    | none =>
      cases hd : differs x with
      | true =>
        rw [show diffRowAux differs x none (fuel + 1) =
            diffRowAux differs (x + 1) (some x) fuel from by simp only [diffRowAux, hd]]
          at hmem
        have hres := ih (x + 1) (some x) s len (by rintro t ht; cases ht; omega) hmem
        have hxs := hres.2 x rfl
        exact ⟨fun _ => hxs, (by rintro t ht; cases ht)⟩
      | false =>
        rw [show diffRowAux differs x none (fuel + 1) =
            diffRowAux differs (x + 1) none fuel from by simp only [diffRowAux, hd]]
          at hmem
        have hres := ih (x + 1) none s len (by rintro t ht; cases ht) hmem
        have hxs := hres.1 rfl
        exact ⟨fun _ => by omega, (by rintro t ht; cases ht)⟩
    | some s0 =>
      have hs0x : s0 ≤ x := hst s0 rfl
      cases hd : differs x with
      | true =>
        rw [show diffRowAux differs x (some s0) (fuel + 1) =
            diffRowAux differs (x + 1) (some s0) fuel from by simp only [diffRowAux, hd]]
          at hmem
        have hres := ih (x + 1) (some s0) s len (by rintro t ht; cases ht; omega) hmem
        exact ⟨(by intro h; cases h), hres.2⟩
      | false =>
        rw [show diffRowAux differs x (some s0) (fuel + 1) =
            (s0, x - s0) :: diffRowAux differs (x + 1) none fuel from by
              simp only [diffRowAux, hd]] at hmem
        rcases List.mem_cons.mp hmem with heq | htail
        · rw [Prod.mk.injEq] at heq
          obtain ⟨rfl, -⟩ := heq
          exact ⟨(by intro h; cases h), (by rintro t ht; cases ht; exact le_refl s)⟩
        · have hres := ih (x + 1) none s len (by rintro t ht; cases ht) htail
          have hxs := hres.1 rfl
          exact ⟨(by intro h; cases h), (by rintro t ht; cases ht; omega)⟩

/-- The emitted runs are strictly ordered with a gap. -/
theorem diffRowAux_pairwise (differs : Nat → Bool) :
    ∀ (fuel x : Nat) (st : Option Nat), (∀ t, st = some t → t ≤ x) →
      (diffRowAux differs x st fuel).Pairwise (fun a b => a.1 + a.2 < b.1) := by
  intro fuel
  induction fuel with
  | zero =>
    intro x st hst
    cases st <;> simp [diffRowAux]
  | succ fuel ih =>
    intro x st hst
    cases st with
    | none =>
      cases hd : differs x with
      | true =>
        rw [show diffRowAux differs x none (fuel + 1) =
            diffRowAux differs (x + 1) (some x) fuel from by simp only [diffRowAux, hd]]
        exact ih (x + 1) (some x) (by rintro t ht; cases ht; omega)
      | false =>
        rw [show diffRowAux differs x none (fuel + 1) =
            diffRowAux differs (x + 1) none fuel from by simp only [diffRowAux, hd]]
        exact ih (x + 1) none (by rintro t ht; cases ht)
    | some s0 =>
      have hs0x : s0 ≤ x := hst s0 rfl
      cases hd : differs x with
      | true =>
        rw [show diffRowAux differs x (some s0) (fuel + 1) =
            diffRowAux differs (x + 1) (some s0) fuel from by simp only [diffRowAux, hd]]
        exact ih (x + 1) (some s0) (by rintro t ht; cases ht; omega)
      | false =>
        rw [show diffRowAux differs x (some s0) (fuel + 1) =
            (s0, x - s0) :: diffRowAux differs (x + 1) none fuel from by
              simp only [diffRowAux, hd]]
        refine List.Pairwise.cons ?_ (ih (x + 1) none (by rintro t ht; cases ht))
        rintro ⟨b1, b2⟩ hb
        have hlb := (diffRowAux_lb differs fuel (x + 1) none b1 b2
          (by rintro t ht; cases ht) hb).1 rfl
        show s0 + (x - s0) < b1
        omega

/-- Pairwise structure of a flatMap from pairwise structure of the pieces. -/
theorem pairwise_flatMap {α β : Type} (R : β → β → Prop) (S : α → α → Prop)
    (f : α → List β) :
    ∀ l : List α, l.Pairwise S → (∀ a ∈ l, (f a).Pairwise R) →
      (∀ a1 a2, S a1 a2 → ∀ b1 ∈ f a1, ∀ b2 ∈ f a2, R b1 b2) →
      (l.flatMap f).Pairwise R := by
  intro l
  induction l with
  | nil => intro _ _ _; simp
  | cons a l ih =>
    intro hl hf hcross
    rw [List.flatMap_cons, List.pairwise_append]
    refine ⟨hf a (List.mem_cons_self a l), ?_, ?_⟩
    · exact ih (List.Pairwise.sublist (List.sublist_cons_self a l) hl)
        (fun a2 ha2 => hf a2 (List.mem_cons_of_mem a ha2)) hcross
    · intro b1 hb1 b2 hb2
      rw [List.mem_flatMap] at hb2
      obtain ⟨a2, ha2, hb2'⟩ := hb2
      have hS : S a a2 := (List.pairwise_cons.mp hl).1 a2 ha2
      exact hcross a a2 hS b1 hb1 b2 hb2'

theorem cellDiffers_iff (A B : TerminalGrid) (y x : Nat) :
    cellDiffers A B y x = true ↔ A.cellAt x y ≠ B.cellAt x y := by
  unfold cellDiffers
  rw [Bool.not_eq_true', Bool.eq_false_iff]
  exact not_congr (cellsEqual_iff _ _)

theorem cellDiffers_eq_false_iff (A B : TerminalGrid) (y x : Nat) :
    cellDiffers A B y x = false ↔ A.cellAt x y = B.cellAt x y := by
  rw [Bool.eq_false_iff, Ne, cellDiffers_iff, not_not]

/-- Membership in the diff output for same-dimension grids. -/
theorem Diff_mem (A B : TerminalGrid) (hW : A.Width = B.Width)
    (hH : A.Height = B.Height) (r : Region) :
    r ∈ A.Diff (some B) ↔ ∃ y, y < A.Height.toNat ∧ ∃ s len,
      IsMaxRun (cellDiffers A B y) A.Width.toNat s len ∧
      r = { X := (s : Int), Y := (y : Int), Width := (len : Int), Height := 1 } := by
  simp only [TerminalGrid.Diff]
  rw [if_neg (by simp [hW, hH])]
  rw [List.mem_flatMap]
  constructor
  · rintro ⟨y, hy, hr⟩
    rw [List.mem_range] at hy
    rw [List.mem_map] at hr
    obtain ⟨⟨s, len⟩, hmem, rfl⟩ := hr
    exact ⟨y, hy, s, len, (diffRow_mem _ _ _ _).mp hmem, rfl⟩
  · rintro ⟨y, hy, s, len, hmax, rfl⟩
    exact ⟨y, List.mem_range.mpr hy,
      List.mem_map.mpr ⟨(s, len), (diffRow_mem _ _ _ _).mpr hmax, rfl⟩⟩

/-- The strict output order of the diff: rows ascend, and within a row the
regions ascend with a gap. -/
def regBefore (r1 r2 : Region) : Prop :=
  r1.Y < r2.Y ∨ (r1.Y = r2.Y ∧ r1.X + r1.Width < r2.X ∧ r1.X < r2.X)

theorem Diff_pairwise (A B : TerminalGrid) (hW : A.Width = B.Width)
    (hH : A.Height = B.Height) :
    (A.Diff (some B)).Pairwise regBefore := by
  simp only [TerminalGrid.Diff]
  rw [if_neg (by simp [hW, hH])]
  apply pairwise_flatMap regBefore (· < ·)
  · exact List.pairwise_lt_range _
  · intro y hy
    rw [List.pairwise_map]
    have hp := diffRowAux_pairwise (cellDiffers A B y) A.Width.toNat 0 none
      (by rintro t ht; cases ht)
    have hd : diffRow (cellDiffers A B y) A.Width.toNat =
        diffRowAux (cellDiffers A B y) 0 none A.Width.toNat := rfl
    rw [hd]
    refine hp.imp ?_
    intro a b hab
    exact Or.inr ⟨rfl, by push_cast; omega, by push_cast; omega⟩
  · intro y1 y2 hlt b1 hb1 b2 hb2
    rw [List.mem_map] at hb1 hb2
    obtain ⟨a1, -, rfl⟩ := hb1
    obtain ⟨a2, -, rfl⟩ := hb2
    exact Or.inl (show (y1 : Int) < (y2 : Int) by exact_mod_cast hlt)

/-- C1: for equal-dimension positive grids, `Diff` returns exactly the
maximal contiguous horizontal runs of structurally differing cells: every
returned region has height 1, spans only differing cells, and is maximal on
both sides; every differing cell is covered by exactly one returned region
(and the output has no duplicates); regions of the same row are neither
adjacent nor overlapping; and an unchanged row contributes no region. -/
theorem Diff_spec (A B : TerminalGrid)
    (hW : A.Width = B.Width) (hH : A.Height = B.Height)
    (_hWpos : 0 < A.Width) (_hHpos : 0 < A.Height) :
    (∀ r ∈ A.Diff (some B), ∃ s len y : Nat,
       r = { X := (s : Int), Y := (y : Int), Width := (len : Int), Height := 1 } ∧
       0 < len ∧ s + len ≤ A.Width.toNat ∧ y < A.Height.toNat ∧
       (∀ i, s ≤ i → i < s + len → A.cellAt i y ≠ B.cellAt i y) ∧
       (s = 0 ∨ A.cellAt (s - 1) y = B.cellAt (s - 1) y) ∧
       (s + len = A.Width.toNat ∨ A.cellAt (s + len) y = B.cellAt (s + len) y)) ∧
    (∀ x y : Nat, x < A.Width.toNat → y < A.Height.toNat →
       A.cellAt x y ≠ B.cellAt x y →
       ∃! r, r ∈ A.Diff (some B) ∧ r.Y = (y : Int) ∧
         r.X ≤ (x : Int) ∧ (x : Int) < r.X + r.Width) ∧
    (A.Diff (some B)).Nodup ∧
    (∀ r1 ∈ A.Diff (some B), ∀ r2 ∈ A.Diff (some B), r1 ≠ r2 → r1.Y = r2.Y →
       r1.X + r1.Width < r2.X ∨ r2.X + r2.Width < r1.X) ∧
    (∀ y : Nat, y < A.Height.toNat →
       (∀ x, x < A.Width.toNat → A.cellAt x y = B.cellAt x y) →
       ∀ r ∈ A.Diff (some B), r.Y ≠ (y : Int)) := by
  refine ⟨?_, ?_, ?_, ?_, ?_⟩
  · intro r hr
    obtain ⟨y, hy, s, len, ⟨hpos, hle, hall, hleft, hright⟩, rfl⟩ :=
      (Diff_mem A B hW hH r).mp hr
    refine ⟨s, len, y, rfl, hpos, hle, hy, ?_, ?_, ?_⟩
    · intro i h1 h2
      exact (cellDiffers_iff A B y i).mp (hall i h1 h2)
    · rcases hleft with h0 | hnd
      · exact Or.inl h0
      · exact Or.inr ((cellDiffers_eq_false_iff A B y (s - 1)).mp hnd)
    · rcases hright with hw | hnd
      · exact Or.inl hw
      · exact Or.inr ((cellDiffers_eq_false_iff A B y (s + len)).mp hnd)
  · intro x y hx hy hne
    have hd : cellDiffers A B y x = true := (cellDiffers_iff A B y x).mpr hne
    obtain ⟨s, len, hmax, hsx, hxe⟩ :=
      exists_maxRun (cellDiffers A B y) A.Width.toNat x hx hd
    refine ⟨{ X := (s : Int), Y := (y : Int), Width := (len : Int), Height := 1 },
      ⟨(Diff_mem A B hW hH _).mpr ⟨y, hy, s, len, hmax, rfl⟩, rfl, ?_, ?_⟩, ?_⟩
    · show (s : Int) ≤ (x : Int)
      exact_mod_cast hsx
    · show (x : Int) < (s : Int) + (len : Int)
      omega
    · rintro r' ⟨hr', hY, hX1, hX2⟩
      obtain ⟨y', hy', s', len', hmax', rfl⟩ := (Diff_mem A B hW hH r').mp hr'
      have hyy : y' = y := by
        have h : (y' : Int) = (y : Int) := hY
        exact_mod_cast h
      subst hyy
      have hc1 : s' ≤ x ∧ x < s' + len' := by
        constructor
        · have h : (s' : Int) ≤ (x : Int) := hX1
          exact_mod_cast h
        · have h : (x : Int) < (s' : Int) + (len' : Int) := hX2
          exact_mod_cast h
      obtain ⟨hs, hlen⟩ := maxRun_unique (cellDiffers A B y') A.Width.toNat
        s' len' s len x hmax' hmax hc1 ⟨hsx, hxe⟩
      rw [hs, hlen]
  · exact (Diff_pairwise A B hW hH).imp (fun {a b} h => by
      intro heq
      subst heq
      rcases h with h | ⟨-, -, h⟩ <;> omega)
  · intro r1 h1 r2 h2 hne hYeq
    have hS : (A.Diff (some B)).Pairwise (fun r1 r2 =>
        r1.Y ≠ r2.Y ∨ r1.X + r1.Width < r2.X ∨ r2.X + r2.Width < r1.X) := by
      refine (Diff_pairwise A B hW hH).imp ?_
      intro a b h
      rcases h with h | ⟨heq, h2, h3⟩
      · exact Or.inl (by omega)
      · exact Or.inr (Or.inl h2)
    have hsym : Symmetric (fun r1 r2 : Region =>
        r1.Y ≠ r2.Y ∨ r1.X + r1.Width < r2.X ∨ r2.X + r2.Width < r1.X) := by
      intro a b h
      rcases h with h | h | h
      · exact Or.inl (Ne.symm h)
      · exact Or.inr (Or.inr h)
      · exact Or.inr (Or.inl h)
    rcases hS.forall hsym h1 h2 hne with hY | h
    · exact absurd hYeq hY
    · exact h
  · intro y hy hrow r hr
    intro hYeq
    obtain ⟨y', hy', s, len, ⟨hpos, hle, hall, -, -⟩, rfl⟩ := (Diff_mem A B hW hH r).mp hr
    have hyy : y' = y := by
      have h : (y' : Int) = (y : Int) := hYeq
      exact_mod_cast h
    subst hyy
    have hds := hall s (le_refl s) (by omega)
    have := (cellDiffers_iff A B y' s).mp hds
    exact this (hrow s (by omega))

/-- A pair of 2x1 grids that differ only in the second cell of the row. -/
def diffSampleA : TerminalGrid :=
  { Width := 2, Height := 1, Cells := [[NewCell, { NewCell with Rune := 'X' }]] }

def diffSampleB : TerminalGrid :=
  { Width := 2, Height := 1, Cells := [[NewCell, NewCell]] }

theorem Diff_spec_witness :
    (∃! r, r ∈ diffSampleA.Diff (some diffSampleB) ∧ r.Y = ((0 : Nat) : Int) ∧
       r.X ≤ ((1 : Nat) : Int) ∧ ((1 : Nat) : Int) < r.X + r.Width) ∧
    (diffSampleA.Diff (some diffSampleB)).Nodup :=
  ⟨(Diff_spec diffSampleA diffSampleB (by decide) (by decide) (by decide)
      (by decide)).2.1 1 0 (by decide) (by decide) (by decide),
   (Diff_spec diffSampleA diffSampleB (by decide) (by decide) (by decide)
      (by decide)).2.2.1⟩

end Bubblegum
